import Mathlib

/-!
Shallow embedding of the SSA construction pass (`ssa_transform.cpp`).

The pass rewrites a structured IR (functions, local/global scalar variables,
tensors, assignments, `for` loops, `if/else`) into SSA form: every local
scalar gets exactly one definition, composite expressions are flattened into
named temporaries, and values flowing across joins are merged by phi nodes.

The C++ pass mutates IR nodes in place (phi operand lists are patched after
the loop body is known; temporaries are renamed after emission).  The
embedding therefore keeps the freshly created `var` nodes and phi nodes in
arenas indexed by numeric ids: `NExpr.var i` / `NExpr.phiRef i` play the role
of pointers, so C++ pointer identity (`ptr_same`) and in-place mutation are
faithfully represented by id equality and arena updates.
-/

namespace SsaTransform

/-- Opaque dtype tag (`sc_data_type_t` is irrelevant to the pass; only
equality of the declared dtype matters). -/
abbrev DType := Nat

/-- Source (pre-pass) IR expressions.  `var` carries the
`module_global_offset` attribute as a boolean (`isGlobalAttr`); `unop` and
`binop` stand for the catch-all composite operations the visitor base
rebuilds from dispatched children. -/
inductive SrcExpr : Type where
  | var (name : String) (dtype : DType) (isGlobalAttr : Bool)
  | tensor (name : String)
  | constant (value : Int) (dtype : DType)
  | indexing (base : SrcExpr) (idx : SrcExpr)
  | unop (a : SrcExpr)
  | binop (a : SrcExpr) (b : SrcExpr)
deriving DecidableEq, Repr

-- Source statements and statement blocks (`stmts_c`).
mutual
inductive SrcStmt : Type where
  | define (v : SrcExpr) (init : Option SrcExpr)
  | assign (lhs : SrcExpr) (value : SrcExpr)
  | forLoop (itVar : SrcExpr) (iterBegin iterEnd step : SrcExpr) (body : SrcBlock)
  | ifElse (cond : SrcExpr) (thenCase : SrcBlock) (elseCase : Option SrcBlock)
  | eval (e : SrcExpr)
inductive SrcBlock : Type where
  | nil
  | cons (s : SrcStmt) (rest : SrcBlock)
end

/-- New (post-pass) IR expressions.  `var i` and `phiRef i` are indices into
the variable arena / phi-operand arena of the pass state; they model the C++
expression node objects whose fields are mutated in place. -/
inductive NExpr : Type where
  | var (id : Nat)
  | tensor (name : String)
  | constant (value : Int) (dtype : DType)
  | indexing (base : NExpr) (idx : NExpr)
  | unop (a : NExpr)
  | binop (a : NExpr) (b : NExpr)
  | phiRef (id : Nat)
deriving DecidableEq, Repr

/-- Arena record of a freshly built `var` node: its (mutable) name, its
`ssa_data_t` flags, and the back-pointer to its defining expression
(`get_value_of_var`). -/
structure VarInfo where
  name : String
  dtype : DType
  isGlobal : Bool
  isParam : Bool
  defValue : Option NExpr
deriving DecidableEq, Repr

-- New statements.
mutual
inductive NStmt : Type where
  | define (v : NExpr) (init : Option NExpr)
  | assign (lhs : NExpr) (value : NExpr)
  | forLoop (itVar : NExpr) (iterBegin iterEnd step : NExpr) (body : NBlock)
  | ifElse (cond : NExpr) (thenCase : NBlock) (elseCase : Option NBlock)
  | eval (e : NExpr)
inductive NBlock : Type where
  | nil
  | cons (s : NStmt) (rest : NBlock)
end

/-- Convert an emitted statement list into a block node. -/
def toNBlock : List NStmt → NBlock
  | [] => .nil
  | s :: r => .cons s (toNBlock r)

/-- Per-variable status (`ssa_var_status_t`). -/
structure SsaVarStatus where
  current_value : Option NExpr
  defined_scope_idx : Nat
  for_loop_phi : List NExpr
deriving DecidableEq, Repr

/-- Scope kinds (`ssa_scope_t::kind`). -/
inductive ScopeKind : Type where
  | normal
  | for_loop
  | if_then
  | if_else
deriving DecidableEq, Repr

/-- Discriminant of the node type, used by `var_cmper_t` as primary key. -/
def exprKindId : SrcExpr → Nat
  | .var .. => 0
  | .tensor .. => 1
  | .constant .. => 2
  | .indexing .. => 3
  | .unop .. => 4
  | .binop .. => 5

/-- Name of a `var`/`tensor` node, the secondary key of `var_cmper_t`. -/
def keyName : SrcExpr → String
  | .var n _ _ => n
  | .tensor n => n
  | _ => ""

/-- Lexicographic comparison of character lists (the byte-wise
`std::string::operator<`). -/
def strLtAux : List Char → List Char → Bool
  | [], [] => false
  | [], _ :: _ => true
  | _ :: _, [] => false
  | a :: as, b :: bs =>
    if a.toNat < b.toNat then true
    else if b.toNat < a.toNat then false
    else strLtAux as bs

/-- Lexicographic string comparison. -/
def strLt (a b : String) : Bool := strLtAux a.data b.data

/-- The strict-weak-order `var_cmper_t`: node kind first, then name. -/
def varCmpLt (l r : SrcExpr) : Bool :=
  if exprKindId l ≠ exprKindId r then decide (exprKindId l < exprKindId r)
  else strLt (keyName l) (keyName r)

/-- Key equivalence induced by `var_cmper_t` (what `std::map::find` uses). -/
def keyEqv (l r : SrcExpr) : Bool :=
  !varCmpLt l r && !varCmpLt r l

/-- Ordered-map lookup on a scope's variable list (`std::map::find`: the
tree search inspects keys in sorted position, stopping as soon as the probe
key is below the current entry). -/
def mapFind (m : List (SrcExpr × SsaVarStatus)) (k : SrcExpr) :
    Option (SrcExpr × SsaVarStatus) :=
  match m with
  | [] => none
  | p :: rest =>
    if varCmpLt k p.1 then none
    else if varCmpLt p.1 k then mapFind rest k
    else some p

/-- Ordered-map insertion with `std::map::insert` semantics: sorted position,
and an existing equivalent key is kept untouched. -/
def mapInsertNoReplace (m : List (SrcExpr × SsaVarStatus)) (k : SrcExpr)
    (v : SsaVarStatus) : List (SrcExpr × SsaVarStatus) :=
  match m with
  | [] => [(k, v)]
  | p :: rest =>
    if varCmpLt k p.1 then (k, v) :: p :: rest
    else if varCmpLt p.1 k then p :: mapInsertNoReplace rest k v
    else p :: rest

/-- Update (through a `std::map` iterator) the status stored under key `k`. -/
def mapUpdate (m : List (SrcExpr × SsaVarStatus)) (k : SrcExpr)
    (f : SsaVarStatus → SsaVarStatus) : List (SrcExpr × SsaVarStatus) :=
  m.map (fun p => if keyEqv p.1 k then (p.1, f p.2) else p)

/-- A scope (`ssa_scope_t`): ordered variable map, kind, for-loop depth. -/
structure SsaScope where
  vars : List (SrcExpr × SsaVarStatus)
  kind : ScopeKind
  for_depth : Nat
deriving DecidableEq, Repr

/-- Full state of one `ssa_transform_impl_t` instance, together with the
emission buffers of the visitor base (`add_def` / `add_def_after_current_stmt`
append into `pendingBefore` / `pendingAfter`, which the statement-sequence
driver flushes around the current statement). The scope stack is stored
innermost-first (head of `scopes` is the top of the C++ vector). -/
structure PassState where
  scopes : List SsaScope
  varArena : List VarInfo
  phiArena : List (List NExpr)
  need_flatten : Bool
  var_version_idx : Nat
  pendingBefore : List NStmt
  pendingAfter : List NStmt

/-- The pass monad: state plus fatal compile assertions
(`COMPILE_ASSERT` / `checked_as` failures become `Except.error`). -/
def M (α : Type) : Type := PassState → Except String (α × PassState)

instance : Monad M where
  pure a := fun s => .ok (a, s)
  bind x f := fun s =>
    match x s with
    | .error e => .error e
    | .ok (a, s') => f a s'

def getS : M PassState := fun s => .ok (s, s)

def setS (s' : PassState) : M Unit := fun _ => .ok ((), s')

def modifyS (f : PassState → PassState) : M Unit := fun s => .ok ((), f s)

def throwM {α : Type} (msg : String) : M α := fun _ => .error msg

/-- A pointer to an `ssa_var_status_t` inside the live scope stack:
`scope_idx` is the bottom-based index of the scope (the space in which
`defined_scope_idx` lives), `key` the old variable. -/
structure StatusRef where
  scope_idx : Nat
  key : SrcExpr
deriving DecidableEq, Repr

/-- Position (from the top of the stack) of the scope a ref points into. -/
def refPos (s : PassState) (r : StatusRef) : Nat :=
  s.scopes.length - 1 - r.scope_idx

/-- Dereference a status pointer. -/
def readRef (r : StatusRef) : M SsaVarStatus := fun s =>
  match s.scopes.get? (refPos s r) with
  | none => .error "readRef: dangling scope"
  | some sc =>
    match mapFind sc.vars r.key with
    | none => .error "readRef: dangling var"
    | some p => .ok (p.2, s)

/-- Mutate the status a pointer refers to. -/
def writeRef (r : StatusRef) (f : SsaVarStatus → SsaVarStatus) : M Unit := fun s =>
  match s.scopes.get? (refPos s r) with
  | none => .error "writeRef: dangling scope"
  | some sc =>
    let sc' : SsaScope := { sc with vars := mapUpdate sc.vars r.key f }
    .ok ((), { s with scopes := s.scopes.set (refPos s r) sc' })

/-- `push_scope`: the new scope's depth is the previous top's depth,
incremented iff the new scope is a `for_loop`. -/
def push_scope (k : ScopeKind) : M Unit := modifyS fun s =>
  let d := match s.scopes with
    | [] => 0
    | sc :: _ => sc.for_depth
  let d := if k = ScopeKind.for_loop then d + 1 else d
  { s with scopes := ⟨[], k, d⟩ :: s.scopes }

/-- `pop_scope`: detach and return the innermost scope. -/
def pop_scope : M SsaScope := fun s =>
  match s.scopes with
  | [] => .error "pop_scope: empty stack"
  | sc :: rest => .ok (sc, { s with scopes := rest })

/-- `insert_local_var`: `std::map::insert` into the top scope (an existing
entry is kept); `defined_scope_idx` is the bottom-based index of the top. -/
def insert_local_var (old : SrcExpr) (newVal : Option NExpr) : M StatusRef := fun s =>
  match s.scopes with
  | [] => .error "insert_local_var: empty stack"
  | sc :: rest =>
    let sc' : SsaScope :=
      { sc with vars := mapInsertNoReplace sc.vars old ⟨newVal, s.scopes.length - 1, []⟩ }
    .ok (⟨s.scopes.length - 1, old⟩, { s with scopes := sc' :: rest })

/-- Scan the scope stack from the top; `some pos` is the position (from the
top) of the first scope whose map contains the key. -/
def findFromTop : List SsaScope → SrcExpr → Option Nat
  | [], _ => none
  | sc :: rest, k =>
    if (mapFind sc.vars k).isSome then some 0
    else (findFromTop rest k).map (· + 1)

/-- `get_local_var_nothrow`. -/
def get_local_var_nothrow (old : SrcExpr) : M (Option StatusRef) := fun s =>
  match findFromTop s.scopes old with
  | none => .ok (none, s)
  | some pos => .ok (some ⟨s.scopes.length - 1 - pos, old⟩, s)

/-- `get_local_var`: fatal `COMPILE_ASSERT` when the variable is nowhere on
the scope stack. -/
def get_local_var (old : SrcExpr) : M StatusRef := do
  let r ← get_local_var_nothrow old
  match r with
  | some ref => pure ref
  | none => throwM "Undefined var"

/-- `is_old_var_global`: an old `var` node carrying the
`module_global_offset` attribute. -/
def is_old_var_global : SrcExpr → Bool
  | .var _ _ g => g
  | _ => false

/-- `get_local_var_for_update`: globals resolve to their existing deepest
mapping; otherwise use the top scope's entry, creating an undefined one when
missing. -/
def get_local_var_for_update (old : SrcExpr) : M StatusRef := fun s =>
  if is_old_var_global old then get_local_var old s
  else
    match s.scopes with
    | [] => .error "get_local_var_for_update: empty stack"
    | sc :: _ =>
      if (mapFind sc.vars old).isSome then .ok (⟨s.scopes.length - 1, old⟩, s)
      else insert_local_var old none s

/-- Reads the `is_global_` flag of the SSA metadata of a new-IR value
(`current_value->ssa_data_->is_global_`): only freshly built `var` nodes can
carry it; constants/tensors built by this pass have it `false`. -/
def isGlobalVal (s : PassState) : NExpr → Bool
  | .var id =>
    match s.varArena.get? id with
    | some vi => vi.isGlobal
    | none => false
  | _ => false

/-- Allocate a freshly remade `var` node in the arena (`remake()` +
`init_ssa_data`, with the given flags); returns its id. -/
def allocVar (name : String) (dtype : DType) (g p : Bool) (dv : Option NExpr) :
    M Nat := fun s =>
  .ok (s.varArena.length, { s with varArena := s.varArena ++ [⟨name, dtype, g, p, dv⟩] })

/-- Modelled from the spec: `add_def` of the external visitor/rewriter base
(`ssa_visitor_t`, not part of this repository's sources) appends a temporary
definition before the current statement and returns a fresh local variable
referencing it; the new variable's SSA metadata points back to the defining
expression. -/
def add_def (e : NExpr) : M NExpr := fun s =>
  let id := s.varArena.length
  let vi : VarInfo := ⟨"__tmp" ++ toString id, 0, false, false, some e⟩
  .ok (NExpr.var id,
    { s with
      varArena := s.varArena ++ [vi],
      pendingBefore := s.pendingBefore ++ [NStmt.define (NExpr.var id) (some e)] })

/-- Modelled from the spec: `add_def_after_current_stmt` of the external
visitor base, as `add_def` but the definition is appended after the current
statement. -/
def add_def_after_current_stmt (e : NExpr) : M NExpr := fun s =>
  let id := s.varArena.length
  let vi : VarInfo := ⟨"__tmp" ++ toString id, 0, false, false, some e⟩
  .ok (NExpr.var id,
    { s with
      varArena := s.varArena ++ [vi],
      pendingAfter := s.pendingAfter ++ [NStmt.define (NExpr.var id) (some e)] })

/-- Build a `ssa_phi_node` with the given operands (a fresh arena slot, since
its operand vector is mutated when a loop scope pops). -/
def make_phi (ops : List NExpr) : M NExpr := fun s =>
  .ok (NExpr.phiRef s.phiArena.length, { s with phiArena := s.phiArena ++ [ops] })

/-- Append one operand to the phi node defining `phiVar`
(`phi->ssa_data_->get_value_of_var().checked_as<ssa_phi>()->values_.emplace_back(v)`). -/
def append_phi_operand (phiVar : NExpr) (v : NExpr) : M Unit := fun s =>
  match phiVar with
  | .var id =>
    match s.varArena.get? id with
    | some vi =>
      match vi.defValue with
      | some (NExpr.phiRef pid) =>
        match s.phiArena.get? pid with
        | some ops => .ok ((), { s with phiArena := s.phiArena.set pid (ops ++ [v]) })
        | none => .error "append_phi_operand: dangling phi"
      | _ => .error "checked_as<ssa_phi> failed"
    | none => .error "append_phi_operand: dangling var"
  | _ => .error "append_phi_operand: not a var"

/-- `rename_temp_var_with_version`: when the new node is local (neither
global nor a parameter), rename it in place to
`old-name _ version` and bump the per-instance counter. -/
def rename_temp_var_with_version (newv : NExpr) (oldName : String) : M Unit := fun s =>
  match newv with
  | .var id =>
    match s.varArena.get? id with
    | some vi =>
      if !vi.isGlobal && !vi.isParam then
        .ok ((),
          { s with
            varArena := s.varArena.set id
              { vi with name := oldName ++ "_" ++ toString s.var_version_idx },
            var_version_idx := s.var_version_idx + 1 })
      else .ok ((), s)
    | none => .error "rename: dangling var"
  | _ => .error "rename: not a var"

/-- Result of `visit(tensor_c)`: the current value, returned verbatim. -/
def visit_tensor (t : SrcExpr) : M NExpr := do
  let r ← get_local_var t
  let st ← readRef r
  match st.current_value with
  | some cv => pure cv
  | none => throwM "visit_tensor: undefined current_value"

/-- Test for the shapes `dispatch` refuses to flatten further. -/
def isVT : NExpr → Bool
  | .var _ => true
  | .tensor _ => true
  | _ => false

/-- `visit(var_c)`: global values become per-read load definitions; a local
read whose binding was introduced at a strictly smaller for-loop depth
creates a single-operand loop phi, shadows the variable in the top scope and
records the phi for later patching; otherwise the current value is returned
unchanged. -/
def visit_var (v : SrcExpr) : M NExpr := do
  let r ← get_local_var v
  let st ← readRef r
  match st.current_value with
  | none => throwM "visit_var: undefined current_value"
  | some cv => do
    let s ← getS
    match s.scopes with
    | [] => throwM "visit_var: empty stack"
    | curScope :: _ =>
      if !(isGlobalVal s cv) then
        match s.scopes.get? (s.scopes.length - 1 - st.defined_scope_idx) with
        | none => throwM "visit_var: dangling defined_scope_idx"
        | some defScope =>
          if defScope.for_depth < curScope.for_depth then do
            let phiNode ← make_phi [cv]
            let phi ← add_def phiNode
            rename_temp_var_with_version phi (keyName v)
            let ref ← insert_local_var v (some phi)
            writeRef ref (fun x => { x with for_loop_phi := x.for_loop_phi ++ [phi] })
            pure phi
          else pure cv
      else add_def cv

/-- `dispatch(expr_c)` override: reset `need_flatten_` for the children, run
the base dispatch (inlined per node kind), and wrap any non-`var`/non-`tensor`
result in a fresh temporary definition when the caller asked for flattening. -/
def dispatchExpr (e : SrcExpr) : M NExpr := do
  let s0 ← getS
  setS { s0 with need_flatten := true }
  let ret ←
    (match e with
     | .var n dt g => visit_var (.var n dt g)
     | .tensor n => visit_tensor (.tensor n)
     | .constant v dt => pure (NExpr.constant v dt)
     | .indexing b i => do
        let b' ← dispatchExpr b
        let i' ← dispatchExpr i
        pure (NExpr.indexing b' i')
     | .unop a => do
        let a' ← dispatchExpr a
        pure (NExpr.unop a')
     | .binop a b => do
        let a' ← dispatchExpr a
        let b' ← dispatchExpr b
        pure (NExpr.binop a' b'))
  if s0.need_flatten && !(isVT ret) then add_def ret
  else pure ret

/-- `visit(define_c)`: only local linkage occurs; a local scalar without an
initialiser is removed and its current value becomes a constant `0` of the
declared dtype; otherwise the variable node is remade (marked global for
global scalars) and the initialiser is dispatched unflattened. -/
def visit_define (v : SrcExpr) (init : Option SrcExpr) : M (Option NStmt) := do
  let info ← insert_local_var v none
  match v with
  | .var name dt g =>
    if !g && init.isNone then do
      writeRef info (fun x => { x with current_value := some (NExpr.constant 0 dt) })
      pure none
    else do
      let id ← allocVar name dt g false none
      writeRef info (fun x => { x with current_value := some (NExpr.var id) })
      match init with
      | some i => do
        modifyS (fun s => { s with need_flatten := false })
        let i' ← dispatchExpr i
        pure (some (NStmt.define (NExpr.var id) (some i')))
      | none => pure (some (NStmt.define (NExpr.var id) none))
  | .tensor name => do
    let nt := NExpr.tensor name
    writeRef info (fun x => { x with current_value := some nt })
    match init with
    | some i => do
      modifyS (fun s => { s with need_flatten := false })
      let i' ← dispatchExpr i
      pure (some (NStmt.define nt (some i')))
    | none => pure (some (NStmt.define nt none))
  | _ => throwM "visit_define: lhs is neither var nor tensor"

/-- `visit(assign_c)`: a `var` left-hand side whose current value is not a
global is not emitted — the scope's current value is redirected to the
dispatched right-hand side (renamed when it is a `var`); a global left-hand
side becomes an explicit store; an `indexing` left-hand side is dispatched
unflattened and the assignment is emitted. -/
def visit_assign (lhs : SrcExpr) (value : SrcExpr) : M (Option NStmt) := do
  match lhs with
  | .var .. => do
    let rhs ← dispatchExpr value
    let var_info ← get_local_var_for_update lhs
    let st ← readRef var_info
    let s ← getS
    let isGlobalCase := match st.current_value with
      | some cv => isGlobalVal s cv
      | none => false
    if !isGlobalCase then do
      writeRef var_info (fun x => { x with current_value := some rhs })
      match rhs with
      | .var _ => do
        rename_temp_var_with_version rhs (keyName lhs)
        pure none
      | .constant _ _ => pure none
      | _ => throwM "assign: current_value is neither var nor constant"
    else
      match st.current_value with
      | some cv => pure (some (NStmt.assign cv rhs))
      | none => throwM "assign: unreachable"
  | .indexing .. => do
    modifyS (fun s => { s with need_flatten := false })
    let l ← dispatchExpr lhs
    let r ← dispatchExpr value
    pure (some (NStmt.assign l r))
  | _ => throwM "assign: lhs is neither var nor indexing"

/-- Patch the recorded loop phis of one popped status: a phi literally
identical to the final in-loop value is skipped, otherwise the final value is
appended to its operand list. -/
def patch_loop_phis (phis : List NExpr) (cv : Option NExpr) : M Unit :=
  match phis with
  | [] => pure ()
  | phi :: rest => do
    (if some phi = cv then pure ()
     else
       match cv with
       | some c => append_phi_operand phi c
       | none => throwM "patch_loop_phis: undefined current_value")
    patch_loop_phis rest cv

/-- Loop-merge step for a single `(old_var, status)` entry of the popped
for-loop scope (`visit(for_loop_c)`, lines 285-307): nothing happens without
a visible parent binding; otherwise the loop phis are patched and a post-loop
phi over `(parent value, final in-loop value)` is emitted after the loop,
becoming the variable's current value. -/
def for_loop_merge_entry (k : SrcExpr) (st : SsaVarStatus) : M Unit := do
  let p ← get_local_var_nothrow k
  match p with
  | none => pure ()
  | some parentRef => do
    patch_loop_phis st.for_loop_phi st.current_value
    let parentSt ← readRef parentRef
    match parentSt.current_value, st.current_value with
    | some pcv, some cv => do
      let phiNode ← make_phi [pcv, cv]
      let cur_v ← add_def_after_current_stmt phiNode
      let ref ← get_local_var_for_update k
      writeRef ref (fun x => { x with current_value := some cur_v })
      rename_temp_var_with_version cur_v (keyName k)
    | _, _ => throwM "for_loop_merge_entry: undefined current_value"

/-- Loop-merge over every entry of the popped scope, in map order. -/
def for_loop_merge : List (SrcExpr × SsaVarStatus) → M Unit
  | [] => pure ()
  | (k, st) :: rest => do
    for_loop_merge_entry k st
    for_loop_merge rest

/-- Ordered-map insertion for the `updated_vars` collection of the two-arm
`if` merge (`updated_vars[k].emplace_back v`). -/
def collInsert (m : List (SrcExpr × List NExpr)) (k : SrcExpr) (v : NExpr) :
    List (SrcExpr × List NExpr) :=
  match m with
  | [] => [(k, [v])]
  | p :: rest =>
    if varCmpLt k p.1 then (k, [v]) :: p :: rest
    else if varCmpLt p.1 k then p :: collInsert rest k v
    else (p.1, p.2 ++ [v]) :: rest

/-- Collect one arm's final values into `updated_vars` and propagate its
recorded loop phis to the parent status. -/
def collect_arm : List (SrcExpr × SsaVarStatus) → List (SrcExpr × List NExpr) →
    M (List (SrcExpr × List NExpr))
  | [], acc => pure acc
  | (k, st) :: rest, acc => do
    match st.current_value with
    | none => throwM "collect_arm: undefined current_value"
    | some cv => do
      let acc' := collInsert acc k cv
      let ref ← get_local_var_for_update k
      writeRef ref (fun x => { x with for_loop_phi := x.for_loop_phi ++ st.for_loop_phi })
      collect_arm rest acc'

/-- Emit the merge phis of a two-arm `if` from the collected `updated_vars`,
in map order. -/
def emit_merged : List (SrcExpr × List NExpr) → M Unit
  | [] => pure ()
  | (k, ops) :: rest => do
    let phiNode ← make_phi ops
    let new_var ← add_def_after_current_stmt phiNode
    let ref ← get_local_var_for_update k
    writeRef ref (fun x => { x with current_value := some new_var })
    rename_temp_var_with_version new_var (keyName k)
    emit_merged rest

/-- Two-arm `if` merge (`visit(if_else_c)`, lines 325-345). -/
def if_merge_two_arm (thenVars elseVars : List (SrcExpr × SsaVarStatus)) : M Unit := do
  let acc ← collect_arm thenVars []
  let acc' ← collect_arm elseVars acc
  emit_merged acc'

/-- Then-only `if` merge (`visit(if_else_c)`, lines 346-363): entries without
a visible parent binding are skipped entirely. -/
def if_merge_then_only : List (SrcExpr × SsaVarStatus) → M Unit
  | [] => pure ()
  | (k, st) :: rest => do
    let p ← get_local_var_nothrow k
    (match p with
     | none => pure ()
     | some parentRef => do
       let statusRef ← get_local_var_for_update k
       writeRef statusRef (fun x => { x with for_loop_phi := x.for_loop_phi ++ st.for_loop_phi })
       let parentSt ← readRef parentRef
       match parentSt.current_value, st.current_value with
       | some pcv, some cv => do
         let phiNode ← make_phi [pcv, cv]
         let new_var ← add_def_after_current_stmt phiNode
         writeRef statusRef (fun x => { x with current_value := some new_var })
         rename_temp_var_with_version new_var (keyName k)
       | _, _ => throwM "if_merge_then_only: undefined current_value")
    if_merge_then_only rest

-- Statement dispatch (`visit` on statements) and the statement-sequence
-- driver of the visitor base.  The driver part of `dispatchBlock` is
-- modelled from the spec: the external base flushes the definitions appended
-- by `add_def` before — and by `add_def_after_current_stmt` after — each
-- statement of a `stmts` block, and drops statements rewritten to null.
mutual
def dispatchStmt : SrcStmt → M (Option NStmt)
  | .define v i => visit_define v i
  | .assign l v => visit_assign l v
  | .eval e => do
    let e' ← dispatchExpr e
    pure (some (NStmt.eval e'))
  | .forLoop itv b e st body => do
    let b' ← dispatchExpr b
    let e' ← dispatchExpr e
    let st' ← dispatchExpr st
    push_scope .for_loop
    (match itv with
     | .var name dt _ => do
       let id ← allocVar name dt false false none
       let _ ← insert_local_var itv (some (NExpr.var id))
       let body' ← dispatchBlock body
       let scope ← pop_scope
       for_loop_merge scope.vars
       pure (some (NStmt.forLoop (NExpr.var id) b' e' st' (toNBlock body')))
     | _ => throwM "for: iterator is not a var")
  | .ifElse cond t e => do
    let cond' ← dispatchExpr cond
    push_scope .if_then
    let t' ← dispatchBlock t
    let then_scope ← pop_scope
    match e with
    | some eb => do
      push_scope .if_else
      let e' ← dispatchBlock eb
      let else_scope ← pop_scope
      if_merge_two_arm then_scope.vars else_scope.vars
      pure (some (NStmt.ifElse cond' (toNBlock t') (some (toNBlock e'))))
    | none => do
      if_merge_then_only then_scope.vars
      pure (some (NStmt.ifElse cond' (toNBlock t') none))

def dispatchBlock : SrcBlock → M (List NStmt)
  | .nil => pure []
  | .cons s rest => do
    let saved ← getS
    setS { saved with pendingBefore := [], pendingAfter := [] }
    let r ← dispatchStmt s
    let s2 ← getS
    let emitted := s2.pendingBefore ++
      (match r with
       | some st => [st]
       | none => []) ++ s2.pendingAfter
    setS { s2 with pendingBefore := saved.pendingBefore, pendingAfter := saved.pendingAfter }
    let rest' ← dispatchBlock rest
    pure (emitted ++ rest')
end

/-- Remake one function parameter (`p->remake()`, `is_param_ = true`). -/
def remake_param (p : SrcExpr) : M NExpr :=
  match p with
  | .var n dt _ => do
    let id ← allocVar n dt false true none
    pure (NExpr.var id)
  | .tensor n => pure (NExpr.tensor n)
  | _ => throwM "param is neither var nor tensor"

/-- Bind every parameter in the function's fresh scope. -/
def bind_params : List SrcExpr → M (List NExpr)
  | [] => pure []
  | p :: rest => do
    let np ← remake_param p
    let _ ← insert_local_var p (some np)
    let rest' ← bind_params rest
    pure (np :: rest')

/-- A source function: name, parameters, body. -/
structure SrcFunc where
  name : String
  params : List SrcExpr
  body : SrcBlock

/-- `dispatch(func_c)`: fresh normal scope, remade parameters, body, pop. -/
def dispatch_func (f : SrcFunc) : M (List NExpr × List NStmt) := do
  push_scope .normal
  let ps ← bind_params f.params
  let body ← dispatchBlock f.body
  let _ ← pop_scope
  pure (ps, body)

/-- Initial state of a freshly constructed `ssa_transform_impl_t`. -/
def initState : PassState := ⟨[], [], [], true, 0, [], []⟩

/-- The observable result of a transform: rewritten parameters and body,
plus the arenas needed to resolve `var`/`phiRef` ids (names, flags, phi
operand lists). -/
structure TransOut where
  params : List NExpr
  stmts : List NStmt
  vars : List VarInfo
  phis : List (List NExpr)

/-- `ssa_transform_t::operator()(func_c)`: a fresh pass instance per call. -/
def ssa_transform_func (f : SrcFunc) : Except String TransOut :=
  match dispatch_func f initState with
  | .error e => .error e
  | .ok ((ps, body), s) => .ok ⟨ps, body, s.varArena, s.phiArena⟩

/-- `ssa_transform_t::operator()(stmt_c)`: a fresh pass instance dispatches a
standalone statement tree (the `top_level_dispatch` flushing wrapper of the
external base is modelled from the spec). -/
def ssa_transform_stmt (st : SrcStmt) : Except String TransOut :=
  match dispatchBlock (.cons st .nil) initState with
  | .error e => .error e
  | .ok (l, s) => .ok ⟨[], l, s.varArena, s.phiArena⟩

/-! ### Flatness predicates and the state invariant for claim C7 -/

/-- Leaf values: `var`, `tensor` or `constant`. -/
def isLeaf : NExpr → Bool
  | .var _ => true
  | .tensor _ => true
  | .constant _ _ => true
  | _ => false

/-- A flat expression: every operand of a composite operation is a leaf
(phi operands live in the phi arena and are checked separately). -/
def flatE : NExpr → Bool
  | .indexing a b => isLeaf a && isLeaf b
  | .unop a => isLeaf a
  | .binop a b => isLeaf a && isLeaf b
  | _ => true

-- Flat statements and blocks: every embedded expression is flat.
mutual
def flatS : NStmt → Bool
  | .define v i =>
    flatE v &&
      (match i with
       | some e => flatE e
       | none => true)
  | .assign l r => flatE l && flatE r
  | .forLoop itv b e st body => flatE itv && flatE b && flatE e && flatE st && flatB body
  | .ifElse c t e =>
    flatE c && flatB t &&
      (match e with
       | some b => flatB b
       | none => true)
  | .eval e => flatE e
def flatB : NBlock → Bool
  | .nil => true
  | .cons s r => flatS s && flatB r
end

/-- A status is flat when its current value (if any) is a leaf. -/
def statusOK (st : SsaVarStatus) : Bool :=
  match st.current_value with
  | none => true
  | some e => isLeaf e

/-- All statuses of a scope are flat. -/
def scopeOK (sc : SsaScope) : Bool := sc.vars.all (fun p => statusOK p.2)

/-- All collected `updated_vars` values are leaves. -/
def accOK (acc : List (SrcExpr × List NExpr)) : Bool :=
  acc.all (fun p => p.2.all isLeaf)

/-- The C7 state invariant: every visible current value is a leaf, every phi
operand in the arena is a leaf, and every already emitted pending statement
is flat. -/
def Inv (s : PassState) : Prop :=
  (∀ sc ∈ s.scopes, scopeOK sc = true) ∧
  (∀ ops ∈ s.phiArena, ops.all isLeaf = true) ∧
  (∀ t ∈ s.pendingBefore, flatS t = true) ∧
  (∀ t ∈ s.pendingAfter, flatS t = true)

/-- The per-kind visit stage of the expression dispatch (the base visitor's
`visit` selection), split out of `dispatchExpr` for reasoning. -/
def visitExpr (e : SrcExpr) : M NExpr :=
  match e with
  | .var n dt g => visit_var (.var n dt g)
  | .tensor n => visit_tensor (.tensor n)
  | .constant v dt => pure (NExpr.constant v dt)
  | .indexing b i => do
    let b' ← dispatchExpr b
    let i' ← dispatchExpr i
    pure (NExpr.indexing b' i')
  | .unop a => do
    let a' ← dispatchExpr a
    pure (NExpr.unop a')
  | .binop a b => do
    let a' ← dispatchExpr a
    let b' ← dispatchExpr b
    pure (NExpr.binop a' b')

/-! ### Observables used to state the claims -/

/-- The status visible for a variable: scan the scope stack innermost-first
and take the first hit (what a subsequent `get_local_var` would see). -/
def findStatus : List SsaScope → SrcExpr → Option SsaVarStatus
  | [], _ => none
  | sc :: rest, k =>
    match mapFind sc.vars k with
    | some p => some p.2
    | none => findStatus rest k

/-- The visible current value of a variable in a state. -/
def visibleCv (s : PassState) (k : SrcExpr) : Option (Option NExpr) :=
  (findStatus s.scopes k).map (fun st => st.current_value)

/-- Count the top-level definitions whose initialiser is a phi node. -/
def countPhiDefs (l : List NStmt) : Nat :=
  (l.filter (fun s =>
    match s with
    | .define _ (some (.phiRef _)) => true
    | _ => false)).length

/-- A scope map is strictly sorted by `var_cmper_t` order: its iteration
order is therefore uniquely determined by the key set (kind, then name). -/
def sortedKeys : List (SrcExpr × SsaVarStatus) → Bool
  | [] => true
  | [_] => true
  | a :: b :: r => varCmpLt a.1 b.1 && sortedKeys (b :: r)

/-! ### Concrete programs and states used by the witnesses -/

/-- The program of claim C2: `define k = 7; for i in 0..10 step 1 { use(k) }`
(the loop body reads `k` through a generic one-operand operation). -/
def exampleLoopReadOnly : SrcFunc :=
  ⟨"f", [],
    .cons (.define (.var "k" 3 false) (some (.constant 7 3)))
      (.cons
        (.forLoop (.var "i" 3 false) (.constant 0 3) (.constant 10 3) (.constant 1 3)
          (.cons (.eval (.unop (.var "k" 3 false))) .nil))
        .nil)⟩

/-- Concrete outer scope for the C3 witness: `k` bound at depth 0 to `var 0`. -/
def C3outer : SsaScope :=
  ⟨[(SrcExpr.var "k" 3 false, ⟨some (.var 0), 0, []⟩)], .normal, 0⟩

/-- Concrete state for the C3 witness: a for-loop scope (depth 1) above the
outer scope, `var 0` in the arena. -/
def C3state : PassState :=
  ⟨[⟨[], .for_loop, 1⟩, C3outer], [⟨"k", 3, false, false, none⟩], [], true, 0, [], []⟩

/-- Concrete state for the C5 counterexample: local `a` currently a constant,
parameter `p` (arena id 0, `is_param`) bound in the same scope. -/
def C5state : PassState :=
  ⟨[⟨[(SrcExpr.var "a" 3 false, ⟨some (.constant 0 3), 0, []⟩),
      (SrcExpr.var "p" 3 false, ⟨some (.var 0), 0, []⟩)], .normal, 0⟩],
    [⟨"p", 3, false, true, none⟩], [], true, 0, [], []⟩

/-- Resolve the phi node defined by a recorded loop-phi variable: follow the
variable's SSA back-pointer (`get_value_of_var`) into the phi arena. -/
def phiTargetOf (va : List VarInfo) (phiVar : NExpr) : Option Nat :=
  match phiVar with
  | .var id =>
    match va[id]? with
    | some vi =>
      match vi.defValue with
      | some (.phiRef pid) => some pid
      | _ => none
    | none => none
  | _ => none

/-- Claim-side description of the patching half of the loop merge, following
the claim's words: every recorded loop-phi whose node is not identical to the
variable's final in-loop value gets that final value appended to its operand
list; identical ones are skipped. -/
def loopPhiPatchSpec (va : List VarInfo) (ar : List (List NExpr))
    (phis : List NExpr) (cv : NExpr) : List (List NExpr) :=
  phis.foldl
    (fun a phi =>
      if phi = cv then a
      else
        match phiTargetOf va phi with
        | some pid =>
          match a[pid]? with
          | some ops => a.set pid (ops ++ [cv])
          | none => a
        | none => a) ar

/-- Concrete pre-merge state for the C1 witness: the function scope binds `k`
to `var 0`; the popped loop entry (passed separately) carries the loop phi
`var 1` as its unchanged current value. -/
def C1state : PassState :=
  ⟨[⟨[(SrcExpr.var "k" 3 false, ⟨some (.var 0), 0, []⟩)], .normal, 0⟩],
    [⟨"k", 3, false, false, none⟩, ⟨"k_0", 0, false, false, some (.phiRef 0)⟩],
    [[.var 0]], true, 1, [], []⟩

/-- State after the C1 witness merge step: post-loop phi `phi 1 = [var 0,
var 1]` wrapped in `var 2` (renamed `k_1`), emitted after the loop, and `k`'s
parent binding overwritten. -/
def C1after : PassState :=
  ⟨[⟨[(SrcExpr.var "k" 3 false, ⟨some (.var 2), 0, []⟩)], .normal, 0⟩],
    [⟨"k", 3, false, false, none⟩, ⟨"k_0", 0, false, false, some (.phiRef 0)⟩,
      ⟨"k_1", 0, false, false, some (.phiRef 1)⟩],
    [[.var 0], [.var 0, .var 1]], true, 2, [],
    [.define (.var 2) (some (.phiRef 1))]⟩

/-- A function whose body needs flattening and produces loop phis:
`f() { define k = 7; for i in 0..10 step 1 { k = k + 1 } }`. -/
def exampleFlattenFunc : SrcFunc :=
  ⟨"f", [],
    .cons (.define (.var "k" 3 false) (some (.constant 7 3)))
      (.cons
        (.forLoop (.var "i" 3 false) (.constant 0 3) (.constant 10 3) (.constant 1 3)
          (.cons (.assign (.var "k" 3 false)
            (.binop (.var "k" 3 false) (.constant 1 3))) .nil))
        .nil)⟩

/-- The transform's output on `exampleFlattenFunc`. -/
def exampleFlattenOut : TransOut :=
  ⟨[],
    [.define (.var 0) (some (.constant 7 3)),
     .define (.var 1) (some (.constant 0 3)),
     .define (.var 2) (some (.constant 10 3)),
     .define (.var 3) (some (.constant 1 3)),
     .forLoop (.var 4) (.var 1) (.var 2) (.var 3)
       (.cons (.define (.var 5) (some (.phiRef 0)))
         (.cons (.define (.var 6) (some (.constant 1 3)))
           (.cons (.define (.var 7) (some (.binop (.var 5) (.var 6)))) .nil))),
     .define (.var 8) (some (.phiRef 1))],
    [⟨"k", 3, false, false, none⟩,
     ⟨"__tmp1", 0, false, false, some (.constant 0 3)⟩,
     ⟨"__tmp2", 0, false, false, some (.constant 10 3)⟩,
     ⟨"__tmp3", 0, false, false, some (.constant 1 3)⟩,
     ⟨"i", 3, false, false, none⟩,
     ⟨"k_0", 0, false, false, some (.phiRef 0)⟩,
     ⟨"__tmp6", 0, false, false, some (.constant 1 3)⟩,
     ⟨"k_1", 0, false, false, some (.binop (.var 5) (.var 6))⟩,
     ⟨"k_2", 0, false, false, some (.phiRef 1)⟩],
    [[.var 0, .var 7], [.var 0, .var 7]]⟩

/-! ### Evaluation lemmas for the monad -/

theorem M.run_bind {α β : Type} (x : M α) (f : α → M β) (s : PassState) :
    (x >>= f) s = match x s with
      | .error e => .error e
      | .ok (a, s') => f a s' := rfl

theorem M.run_pure {α : Type} (a : α) (s : PassState) :
    (pure a : M α) s = .ok (a, s) := rfl

theorem M.run_getS (s : PassState) : getS s = .ok (s, s) := rfl

theorem M.run_setS (s' s : PassState) : setS s' s = .ok ((), s') := rfl

theorem M.run_modifyS (f : PassState → PassState) (s : PassState) :
    modifyS f s = .ok ((), f s) := rfl

theorem M.run_throwM {α : Type} (msg : String) (s : PassState) :
    (throwM msg : M α) s = .error msg := rfl

theorem M.run_ite {α : Type} (c : Prop) [Decidable c] (x y : M α) (s : PassState) :
    (if c then x else y) s = if c then x s else y s := by
  split <;> rfl

/-! ### Order and map lemmas -/

theorem strLtAux_irrefl : ∀ l : List Char, strLtAux l l = false := by
  intro l
  induction l with
  | nil => rfl
  | cons a as ih => simp [strLtAux, ih]

theorem strLtAux_asymm : ∀ l m : List Char, strLtAux l m = true → strLtAux m l = false := by
  intro l
  induction l with
  | nil =>
    intro m h
    cases m with
    | nil => simp [strLtAux] at h
    | cons b bs => rfl
  | cons a as ih =>
    intro m h
    cases m with
    | nil => simp [strLtAux] at h
    | cons b bs =>
      simp only [strLtAux] at h ⊢
      by_cases h1 : a.toNat < b.toNat
      · have h2 : ¬ b.toNat < a.toNat := by omega
        simp [h1, h2]
      · by_cases h2 : b.toNat < a.toNat
        · simp [h1, h2] at h
        · simp [h1, h2] at h ⊢
          exact ih bs h

theorem strLt_irrefl (a : String) : strLt a a = false := strLtAux_irrefl a.data

theorem strLt_asymm {a b : String} (h : strLt a b = true) : strLt b a = false :=
  strLtAux_asymm a.data b.data h

theorem varCmpLt_irrefl (k : SrcExpr) : varCmpLt k k = false := by
  simp [varCmpLt, strLt_irrefl]

theorem varCmpLt_asymm {a b : SrcExpr} (h : varCmpLt a b = true) :
    varCmpLt b a = false := by
  unfold varCmpLt at h ⊢
  by_cases hk : exprKindId a = exprKindId b
  · rw [if_neg (by simp [hk])] at h
    rw [if_neg (by simp [hk])]
    exact strLt_asymm h
  · rw [if_pos (by simp [hk])] at h
    rw [if_pos (by simp [Ne.symm hk])]
    have h' : exprKindId a < exprKindId b := of_decide_eq_true h
    exact decide_eq_false (by omega)

theorem keyEqv_of_not_lt {a b : SrcExpr} (h1 : varCmpLt a b = false)
    (h2 : varCmpLt b a = false) : keyEqv a b = true := by
  simp [keyEqv, h1, h2]

theorem mapFind_insert_self (m : List (SrcExpr × SsaVarStatus)) (k : SrcExpr)
    (v : SsaVarStatus) :
    mapFind (mapInsertNoReplace m k v) k =
      some (match mapFind m k with
            | some p => p
            | none => (k, v)) := by
  induction m with
  | nil => simp [mapInsertNoReplace, mapFind, varCmpLt_irrefl]
  | cons p rest ih =>
    by_cases h1 : varCmpLt k p.1 = true
    · simp [mapInsertNoReplace, h1, mapFind, varCmpLt_irrefl]
    · by_cases h2 : varCmpLt p.1 k = true
      · have h1' : varCmpLt k p.1 = false := varCmpLt_asymm h2
        simp [mapInsertNoReplace, h1', h2, mapFind, ih]
      · simp at h1 h2
        simp [mapInsertNoReplace, h1, h2, mapFind]

theorem mapFind_update_self (m : List (SrcExpr × SsaVarStatus)) (k : SrcExpr)
    (f : SsaVarStatus → SsaVarStatus) :
    mapFind (mapUpdate m k f) k =
      (mapFind m k).map (fun p => (p.1, f p.2)) := by
  induction m with
  | nil => simp [mapUpdate, mapFind]
  | cons p rest ih =>
    by_cases h1 : varCmpLt k p.1 = true
    · have he : keyEqv p.1 k = false := by
        simp [keyEqv, h1]
      simp [mapUpdate, mapFind, h1, he]
    · by_cases h2 : varCmpLt p.1 k = true
      · have he : keyEqv p.1 k = false := by
          simp [keyEqv, h2]
        simp only [mapUpdate] at ih
        simp [mapUpdate, mapFind, h1, h2, he, ih]
      · simp at h1 h2
        have he : keyEqv p.1 k = true := keyEqv_of_not_lt h2 h1
        simp [mapUpdate, mapFind, h1, h2, he]

theorem mapFind_some_isSome (m : List (SrcExpr × SsaVarStatus)) (k : SrcExpr)
    (p : SrcExpr × SsaVarStatus) (h : mapFind m k = some p) :
    (mapFind m k).isSome = true := by
  simp [h]

/-! ### C9: undefined variable use is a fatal compile assertion -/

/-- Claim C9: dispatching a `var` that has no binding in any scope on the
scope stack fails with the fatal `COMPILE_ASSERT` of `get_local_var`; the
whole pass run aborts with that error (no recovery, no partial result). -/
theorem claim_C9_undefined_var (n : String) (dt : DType) (g : Bool) (s : PassState)
    (h : findFromTop s.scopes (.var n dt g) = none) :
    dispatchExpr (.var n dt g) s = .error "Undefined var" := by
  simp [dispatchExpr, visit_var, get_local_var, get_local_var_nothrow,
    M.run_bind, M.run_pure, M.run_getS, M.run_setS, M.run_throwM, h]

/-- Witness for C9 at a concrete input: the fresh pass state has an empty
scope stack, so any variable use is undefined. -/
theorem claim_C9_witness :
    findFromTop initState.scopes (.var "x" 0 false) = none ∧
    dispatchExpr (.var "x" 0 false) initState = .error "Undefined var" :=
  ⟨rfl, claim_C9_undefined_var "x" 0 false initState rfl⟩

/-! ### C6: local scalar define without initialiser -/

/-- Claim C6: a `define` of a local scalar with no initialiser binds the
variable's current value to a constant `0` of the declared dtype and emits no
statement at all: the visit returns a null statement and leaves both emission
buffers untouched. -/
theorem claim_C6_define_no_init (n : String) (dt : DType) (s : PassState)
    (cs : SsaScope) (rest : List SsaScope) (h0 : s.scopes = cs :: rest) :
    ∃ s', visit_define (.var n dt false) none s = .ok (none, s') ∧
      visibleCv s' (.var n dt false) = some (some (.constant 0 dt)) ∧
      s'.pendingBefore = s.pendingBefore ∧ s'.pendingAfter = s.pendingAfter ∧
      s'.varArena = s.varArena ∧ s'.phiArena = s.phiArena := by
  refine ⟨{ s with scopes := ({ cs with vars := mapUpdate (mapInsertNoReplace cs.vars (.var n dt false) ⟨none, rest.length, []⟩) (.var n dt false) (fun x => { x with current_value := some (NExpr.constant 0 dt) }) } :: rest) }, ?_, ?_, rfl, rfl, rfl, rfl⟩
  · simp [visit_define, insert_local_var, h0, M.run_bind, M.run_pure,
      writeRef, refPos]
  · cases h : mapFind cs.vars (SrcExpr.var n dt false) <;>
      simp [visibleCv, findStatus, mapFind_update_self, mapFind_insert_self, h]

theorem toStringNat0 : (toString (0 : Nat) : String) = "0" := rfl
theorem toStringNat1 : (toString (1 : Nat) : String) = "1" := rfl
theorem toStringNat2 : (toString (2 : Nat) : String) = "2" := rfl
theorem toStringNat3 : (toString (3 : Nat) : String) = "3" := rfl
theorem toStringNat4 : (toString (4 : Nat) : String) = "4" := rfl
theorem toStringNat5 : (toString (5 : Nat) : String) = "5" := rfl
theorem toStringNat6 : (toString (6 : Nat) : String) = "6" := rfl
theorem toStringNat7 : (toString (7 : Nat) : String) = "7" := rfl

/-! ### C2: outer variable read but never reassigned inside a loop -/

/-- Counterexample to claim C2 as stated.  The claim predicts that no
post-loop phi is emitted for `k`, i.e. no top-level definition of the
rewritten function may have a phi initialiser (the only loop-head phi
definition sits inside the loop body).  Running the pass on the program
produces exactly one such top-level definition — the post-loop phi
`phi(k, k_0)` placed right after the `for` by `add_def_after_current_stmt`. -/
theorem claim_C2_counterexample :
    (match ssa_transform_func exampleLoopReadOnly with
     | .ok r => countPhiDefs r.stmts
     | .error _ => 0) = 1 := by
  simp [ssa_transform_func, dispatch_func, bind_params, dispatchBlock, dispatchStmt,
    visit_define, visit_assign, visit_var, visit_tensor, dispatchExpr, push_scope, pop_scope,
    insert_local_var, get_local_var, get_local_var_nothrow, get_local_var_for_update,
    findFromTop, mapFind, mapInsertNoReplace, mapUpdate, readRef, writeRef, refPos,
    add_def, add_def_after_current_stmt, make_phi, append_phi_operand,
    rename_temp_var_with_version, patch_loop_phis, for_loop_merge, for_loop_merge_entry,
    allocVar, isGlobalVal, is_old_var_global, varCmpLt, keyEqv, keyName, exprKindId,
    strLt, strLtAux, isVT, toNBlock, initState, countPhiDefs,
    M.run_bind, M.run_pure, M.run_getS, M.run_setS, M.run_modifyS, M.run_throwM, M.run_ite,
    exampleLoopReadOnly,
    toStringNat0, toStringNat1, toStringNat2, toStringNat3, toStringNat4, toStringNat5,
    toStringNat6, toStringNat7]

/-- Claim C2 as amended: a single loop phi for `k` with one operand (the
outer value, `var 0`) is created on the first in-loop use and is never
patched at loop close (its operand list stays `[var 0]`); but — unlike the
original claim — a post-loop phi for `k` IS synthesised unconditionally, with
operands `[outer value, loop phi var]` = `[var 0, var 5]`, and emitted right
after the loop (the final top-level definition, `var 7`). -/
theorem claim_C2_amended :
    ssa_transform_func exampleLoopReadOnly = .ok
      ⟨[],
        [.define (.var 0) (some (.constant 7 3)),
         .define (.var 1) (some (.constant 0 3)),
         .define (.var 2) (some (.constant 10 3)),
         .define (.var 3) (some (.constant 1 3)),
         .forLoop (.var 4) (.var 1) (.var 2) (.var 3)
           (.cons (.define (.var 5) (some (.phiRef 0)))
             (.cons (.define (.var 6) (some (.unop (.var 5))))
               (.cons (.eval (.var 6)) .nil))),
         .define (.var 7) (some (.phiRef 1))],
        [⟨"k", 3, false, false, none⟩,
         ⟨"__tmp1", 0, false, false, some (.constant 0 3)⟩,
         ⟨"__tmp2", 0, false, false, some (.constant 10 3)⟩,
         ⟨"__tmp3", 0, false, false, some (.constant 1 3)⟩,
         ⟨"i", 3, false, false, none⟩,
         ⟨"k_0", 0, false, false, some (.phiRef 0)⟩,
         ⟨"__tmp6", 0, false, false, some (.unop (.var 5))⟩,
         ⟨"k_1", 0, false, false, some (.phiRef 1)⟩],
        [[.var 0], [.var 0, .var 5]]⟩ := by
  simp [ssa_transform_func, dispatch_func, bind_params, dispatchBlock, dispatchStmt,
    visit_define, visit_assign, visit_var, visit_tensor, dispatchExpr, push_scope, pop_scope,
    insert_local_var, get_local_var, get_local_var_nothrow, get_local_var_for_update,
    findFromTop, mapFind, mapInsertNoReplace, mapUpdate, readRef, writeRef, refPos,
    add_def, add_def_after_current_stmt, make_phi, append_phi_operand,
    rename_temp_var_with_version, patch_loop_phis, for_loop_merge, for_loop_merge_entry,
    allocVar, isGlobalVal, is_old_var_global, varCmpLt, keyEqv, keyName, exprKindId,
    strLt, strLtAux, isVT, toNBlock, initState, countPhiDefs,
    M.run_bind, M.run_pure, M.run_getS, M.run_setS, M.run_modifyS, M.run_throwM, M.run_ite,
    exampleLoopReadOnly,
    toStringNat0, toStringNat1, toStringNat2, toStringNat3, toStringNat4, toStringNat5,
    toStringNat6, toStringNat7]

/-- Witness for C6 at a concrete state with one (normal) scope. -/
theorem claim_C6_witness :
    ∃ s', visit_define (.var "x" 3 false) none
        ⟨[⟨[], .normal, 0⟩], [], [], true, 0, [], []⟩ = .ok (none, s') ∧
      visibleCv s' (.var "x" 3 false) = some (some (.constant 0 3)) ∧
      s'.pendingBefore = [] ∧ s'.pendingAfter = [] ∧
      s'.varArena = [] ∧ s'.phiArena = [] :=
  claim_C6_define_no_init "x" 3 ⟨[⟨[], .normal, 0⟩], [], [], true, 0, [], []⟩
    ⟨[], .normal, 0⟩ [] rfl

theorem findFromTop_lt_length :
    ∀ (l : List SsaScope) (k : SrcExpr) (pos : Nat),
      findFromTop l k = some pos → pos < l.length := by
  intro l
  induction l with
  | nil => intro k pos h; simp [findFromTop] at h
  | cons sc rest ih =>
    intro k pos h
    simp only [findFromTop] at h
    by_cases hsc : (mapFind sc.vars k).isSome = true
    · simp only [hsc, if_true, Option.some.injEq] at h
      simp only [List.length_cons]
      omega
    · simp only [hsc, Bool.false_eq_true, if_false, Option.map_eq_some'] at h
      obtain ⟨q, hq, hq2⟩ := h
      have := ih k q hq
      simp only [List.length_cons]
      omega

theorem set_append_singleton {α : Type} (l : List α) (a b : α) :
    (l ++ [a]).set l.length b = l ++ [b] := by
  induction l with
  | nil => rfl
  | cons x xs ih => simp [List.set, ih]

theorem get_append_singleton {α : Type} (l : List α) (a : α) :
    (l ++ [a])[l.length]? = some a := by
  induction l with
  | nil => rfl
  | cons x xs ih => simp

/-! ### C3: variable use dispatch -/

/-- Claim C3: `visit(var_c)` behaves in exactly three ways.  (a) When the
current value is global, a fresh load definition is emitted and returned —
one per read.  (b) Otherwise, when the top scope's for-loop depth strictly
exceeds the depth of the scope recorded at the binding's
`defined_scope_idx`, a phi whose single operand is the outer current value is
emitted as a definition, the variable is shadowed in the top scope by the phi
variable, and the phi variable is recorded in the shadowing entry's
`for_loop_phi` list.  (c) Otherwise the current value is returned with the
state untouched. -/
theorem claim_C3_visit_var (s : PassState) (v : SrcExpr) (cs : SsaScope)
    (restS : List SsaScope) (pos : Nat) (psc : SsaScope) (pk : SrcExpr)
    (pst : SsaVarStatus) (cv : NExpr) (dsc : SsaScope)
    (hs : s.scopes = cs :: restS)
    (hfind : findFromTop (cs :: restS) v = some pos)
    (hpos : (cs :: restS)[pos]? = some psc)
    (hst : mapFind psc.vars v = some (pk, pst))
    (hcv : pst.current_value = some cv)
    (hdef : (cs :: restS)[restS.length - pst.defined_scope_idx]? = some dsc) :
    (isGlobalVal s cv = true →
      visit_var v s = .ok (.var s.varArena.length,
        { s with
          varArena := s.varArena ++
            [⟨"__tmp" ++ toString s.varArena.length, 0, false, false, some cv⟩],
          pendingBefore := s.pendingBefore ++
            [.define (.var s.varArena.length) (some cv)] })) ∧
    (isGlobalVal s cv = false → dsc.for_depth < cs.for_depth →
      mapFind cs.vars v = none →
      ∃ s', visit_var v s = .ok (.var s.varArena.length, s') ∧
        s'.phiArena = s.phiArena ++ [[cv]] ∧
        s'.varArena = s.varArena ++
          [⟨keyName v ++ "_" ++ toString s.var_version_idx, 0, false, false,
            some (.phiRef s.phiArena.length)⟩] ∧
        s'.var_version_idx = s.var_version_idx + 1 ∧
        s'.pendingBefore = s.pendingBefore ++
          [.define (.var s.varArena.length) (some (.phiRef s.phiArena.length))] ∧
        s'.pendingAfter = s.pendingAfter ∧
        findStatus s'.scopes v =
          some ⟨some (.var s.varArena.length), restS.length,
            [.var s.varArena.length]⟩) ∧
    (isGlobalVal s cv = false → ¬ dsc.for_depth < cs.for_depth →
      visit_var v s = .ok (cv, s)) := by
  have hlen := findFromTop_lt_length (cs :: restS) v pos hfind
  simp only [List.length_cons] at hlen
  have hpos' : restS.length - (restS.length - pos) = pos := by omega
  refine ⟨?_, ?_, ?_⟩
  · intro hg
    simp [visit_var, get_local_var, get_local_var_nothrow, readRef, refPos,
      M.run_bind, M.run_pure, M.run_getS, M.run_throwM, hfind, hpos', hpos, hst,
      hcv, hs, hg, add_def]
  · intro hg hlt htop
    refine ⟨{ s with
        scopes := ({ cs with vars := mapUpdate (mapInsertNoReplace cs.vars v ⟨some (.var s.varArena.length), restS.length, []⟩) v (fun x => { x with for_loop_phi := x.for_loop_phi ++ [.var s.varArena.length] }) } :: restS),
        varArena := s.varArena ++ [⟨keyName v ++ "_" ++ toString s.var_version_idx, 0, false, false, some (.phiRef s.phiArena.length)⟩],
        phiArena := s.phiArena ++ [[cv]],
        var_version_idx := s.var_version_idx + 1,
        pendingBefore := s.pendingBefore ++ [.define (.var s.varArena.length) (some (.phiRef s.phiArena.length))] },
      ?_, rfl, rfl, rfl, rfl, rfl, ?_⟩
    · simp [visit_var, get_local_var, get_local_var_nothrow, readRef, refPos,
        M.run_bind, M.run_pure, M.run_getS, M.run_throwM, hfind, hpos', hpos, hst,
        hcv, hs, hg, hlt, hdef, make_phi, add_def, rename_temp_var_with_version,
        insert_local_var, writeRef, allocVar, get_append_singleton,
        set_append_singleton]
    · cases hfcs : mapFind cs.vars v with
      | none =>
        simp [findStatus, mapFind_update_self, mapFind_insert_self, hfcs]
      | some p => rw [htop] at hfcs; cases hfcs
  · intro hg hge
    simp [visit_var, get_local_var, get_local_var_nothrow, readRef, refPos,
      M.run_bind, M.run_pure, M.run_getS, M.run_throwM, hfind, hpos', hpos, hst,
      hcv, hs, hg, hge, hdef]

/-- Witness for C3 at a concrete input: a local `k` bound in the outer scope
and read from inside a for-loop scope takes the loop-phi branch. -/
theorem claim_C3_witness :
    ∃ s', visit_var (.var "k" 3 false) C3state = .ok (.var 1, s') ∧
      s'.phiArena = C3state.phiArena ++ [[.var 0]] ∧
      s'.varArena = C3state.varArena ++
        [⟨"k" ++ "_" ++ toString 0, 0, false, false, some (.phiRef 0)⟩] ∧
      s'.var_version_idx = 0 + 1 ∧
      s'.pendingBefore = C3state.pendingBefore ++
        [.define (.var 1) (some (.phiRef 0))] ∧
      s'.pendingAfter = C3state.pendingAfter ∧
      findStatus s'.scopes (.var "k" 3 false) = some ⟨some (.var 1), 1, [.var 1]⟩ :=
  (claim_C3_visit_var C3state (.var "k" 3 false) ⟨[], .for_loop, 1⟩ [C3outer] 1
    C3outer (.var "k" 3 false) ⟨some (.var 0), 0, []⟩ (.var 0) C3outer
    rfl rfl rfl rfl rfl rfl).2.1 rfl (by decide) rfl

/-! ### C5: assignment to a var left-hand side -/

/-- Counterexample to claim C5 as stated.  The claim says that whenever the
dispatched right-hand side is a `var`, it is renamed with the suffix
`<lhs-name>_<version>`.  Assigning the parameter `p` to the local `a`
dispatches to the parameter variable (`var 0`), which
`rename_temp_var_with_version` refuses to rename because it is not local:
the arena entry keeps the name `p` and the version counter is not consumed
(the claim predicts name `a_0` and counter 1). -/
theorem claim_C5_counterexample :
    visit_assign (.var "a" 3 false) (.var "p" 3 false) C5state =
      .ok (none,
        ⟨[⟨[(SrcExpr.var "a" 3 false, ⟨some (.var 0), 0, []⟩),
            (SrcExpr.var "p" 3 false, ⟨some (.var 0), 0, []⟩)], .normal, 0⟩],
          [⟨"p", 3, false, true, none⟩], [], true, 0, [], []⟩) := rfl

/-- Claim C5 as amended: for an assignment whose left-hand side is a var.
When the (possibly freshly created) status entry has no defined current value
or a non-global one, no statement is emitted: the top scope's current value
becomes the dispatched right-hand side, and when that result is a var that is
local (neither global-marked nor a parameter) its arena entry is renamed
`lhs-name _ version` and the version counter is bumped — a non-local var
result (e.g. a parameter, see the counterexample) is left unrenamed.  When
the current value is a global, an explicit assign statement from that global
reference is emitted and the state is unchanged. -/
theorem claim_C5_assign_var (s s1 : PassState) (value : SrcExpr) (rhs : NExpr)
    (n : String) (dt : DType) (cs1 : SsaScope) (rest1 : List SsaScope)
    (hrhs : dispatchExpr value s = .ok (rhs, s1))
    (hs1 : s1.scopes = cs1 :: rest1) :
    (∀ pos psc gk gst cv, findFromTop (cs1 :: rest1) (.var n dt true) = some pos →
      (cs1 :: rest1)[pos]? = some psc →
      mapFind psc.vars (.var n dt true) = some (gk, gst) →
      gst.current_value = some cv → isGlobalVal s1 cv = true →
      visit_assign (.var n dt true) value s = .ok (some (.assign cv rhs), s1)) ∧
    (∀ ek est, mapFind cs1.vars (.var n dt false) = some (ek, est) →
      (match est.current_value with
       | some cv => isGlobalVal s1 cv
       | none => false) = false →
      (∀ id vi, rhs = .var id → s1.varArena[id]? = some vi →
        vi.isGlobal = false → vi.isParam = false →
        visit_assign (.var n dt false) value s = .ok (none,
          { s1 with
            scopes := ({ cs1 with vars := mapUpdate cs1.vars (.var n dt false) (fun x => { x with current_value := some rhs }) } :: rest1),
            varArena := s1.varArena.set id { vi with name := n ++ "_" ++ toString s1.var_version_idx },
            var_version_idx := s1.var_version_idx + 1 })) ∧
      (∀ c cdt, rhs = .constant c cdt →
        visit_assign (.var n dt false) value s = .ok (none,
          { s1 with
            scopes := ({ cs1 with vars := mapUpdate cs1.vars (.var n dt false) (fun x => { x with current_value := some rhs }) } :: rest1) }))) ∧
    (mapFind cs1.vars (.var n dt false) = none →
      ∀ id vi, rhs = .var id → s1.varArena[id]? = some vi →
        vi.isGlobal = false → vi.isParam = false →
        visit_assign (.var n dt false) value s = .ok (none,
          { s1 with
            scopes := ({ cs1 with vars := mapUpdate (mapInsertNoReplace cs1.vars (.var n dt false) ⟨none, rest1.length, []⟩) (.var n dt false) (fun x => { x with current_value := some rhs }) } :: rest1),
            varArena := s1.varArena.set id { vi with name := n ++ "_" ++ toString s1.var_version_idx },
            var_version_idx := s1.var_version_idx + 1 })) := by
  refine ⟨?_, ?_, ?_⟩
  · intro pos psc gk gst cv hfg hpg hstg hcvg hglob
    have hlen := findFromTop_lt_length (cs1 :: rest1) (.var n dt true) pos hfg
    simp only [List.length_cons] at hlen
    have hpos' : rest1.length - (rest1.length - pos) = pos := by omega
    simp [visit_assign, hrhs, get_local_var_for_update, get_local_var,
      get_local_var_nothrow, is_old_var_global, readRef, refPos, M.run_bind,
      M.run_pure, M.run_getS, M.run_throwM, hs1, hfg, hpos', hpg, hstg, hcvg,
      hglob]
  · intro ek est hfind hcond
    constructor
    · intro id vi hrv hvi hvg hvp
      subst hrv
      simp [visit_assign, hrhs, get_local_var_for_update, get_local_var,
        get_local_var_nothrow, is_old_var_global, readRef, refPos, M.run_bind,
        M.run_pure, M.run_getS, M.run_throwM, M.run_ite, hs1, hfind, hcond,
        rename_temp_var_with_version, writeRef, hvi, hvg, hvp, keyName,
        mapFind_update_self]
    · intro c cdt hrv
      subst hrv
      simp [visit_assign, hrhs, get_local_var_for_update, get_local_var,
        get_local_var_nothrow, is_old_var_global, readRef, refPos, M.run_bind,
        M.run_pure, M.run_getS, M.run_throwM, M.run_ite, hs1, hfind, hcond,
        writeRef, mapFind_update_self]
  · intro hnone id vi hrv hvi hvg hvp
    subst hrv
    simp [visit_assign, hrhs, get_local_var_for_update, get_local_var,
      get_local_var_nothrow, is_old_var_global, insert_local_var, readRef,
      refPos, M.run_bind, M.run_pure, M.run_getS, M.run_throwM, M.run_ite, hs1,
      hnone, rename_temp_var_with_version, writeRef, hvi, hvg, hvp, keyName,
      mapFind_update_self, mapFind_insert_self]

/-- Witness for C5 (amended) at a concrete input: `a = 1` wraps the constant
into a fresh local temporary, which is then renamed `a_0` and becomes `a`'s
current value; no statement is emitted. -/
theorem claim_C5_witness :
    visit_assign (.var "a" 3 false) (.constant 1 3)
      ⟨[⟨[(SrcExpr.var "a" 3 false, ⟨some (.constant 0 3), 0, []⟩)], .normal, 0⟩],
        [], [], true, 0, [], []⟩ =
      .ok (none,
        ⟨[⟨[(SrcExpr.var "a" 3 false, ⟨some (.var 0), 0, []⟩)], .normal, 0⟩],
          [⟨"a" ++ "_" ++ toString 0, 0, false, false, some (.constant 1 3)⟩],
          [], true, 1, [.define (.var 0) (some (.constant 1 3))], []⟩) :=
  ((claim_C5_assign_var
      ⟨[⟨[(SrcExpr.var "a" 3 false, ⟨some (.constant 0 3), 0, []⟩)], .normal, 0⟩],
        [], [], true, 0, [], []⟩
      ⟨[⟨[(SrcExpr.var "a" 3 false, ⟨some (.constant 0 3), 0, []⟩)], .normal, 0⟩],
        [⟨"__tmp0", 0, false, false, some (.constant 1 3)⟩], [], true, 0,
        [.define (.var 0) (some (.constant 1 3))], []⟩
      (.constant 1 3) (.var 0) "a" 3
      ⟨[(SrcExpr.var "a" 3 false, ⟨some (.constant 0 3), 0, []⟩)], .normal, 0⟩
      [] rfl rfl).2.1
    (SrcExpr.var "a" 3 false) ⟨some (.constant 0 3), 0, []⟩ rfl rfl).1
    0 ⟨"__tmp0", 0, false, false, some (.constant 1 3)⟩ rfl rfl rfl rfl

/-! ### C1: the for-loop merge -/

theorem loopPhiPatchSpec_length (va : List VarInfo) (phis : List NExpr)
    (cv : NExpr) : ∀ ar, (loopPhiPatchSpec va ar phis cv).length = ar.length := by
  induction phis with
  | nil => intro ar; rfl
  | cons phi rest ih =>
    intro ar
    simp only [loopPhiPatchSpec, List.foldl_cons]
    by_cases h : phi = cv
    · simpa [h, loopPhiPatchSpec] using ih ar
    · cases ht : phiTargetOf va phi with
      | none => simpa [h, ht, loopPhiPatchSpec] using ih ar
      | some pid =>
        cases ha : ar[pid]? with
        | none => simpa [h, ht, ha, loopPhiPatchSpec] using ih ar
        | some ops =>
          have := ih (ar.set pid (ops ++ [cv]))
          simp only [loopPhiPatchSpec] at this
          simp [h, ht, ha, loopPhiPatchSpec, this]

theorem append_phi_operand_ok (phiVar v : NExpr) (s s' : PassState)
    (h : append_phi_operand phiVar v s = .ok ((), s')) :
    ∃ id vi pid ops, phiVar = .var id ∧ s.varArena[id]? = some vi ∧
      vi.defValue = some (.phiRef pid) ∧ s.phiArena[pid]? = some ops ∧
      s' = { s with phiArena := s.phiArena.set pid (ops ++ [v]) } := by
  cases phiVar with
  | var id =>
    cases hvi : s.varArena[id]? with
    | none => simp [append_phi_operand, hvi] at h
    | some vi =>
      cases hdv : vi.defValue with
      | none => simp [append_phi_operand, hvi, hdv] at h
      | some dv =>
        cases dv with
        | phiRef pid =>
          cases hops : s.phiArena[pid]? with
          | none => simp [append_phi_operand, hvi, hdv, hops] at h
          | some ops =>
            simp only [append_phi_operand, List.get?_eq_getElem?, hvi, hdv,
              hops, Except.ok.injEq, Prod.mk.injEq, true_and] at h
            exact ⟨id, vi, pid, ops, rfl, hvi, hdv, hops, h.symm⟩
        | var i2 => simp [append_phi_operand, hvi, hdv] at h
        | tensor nm => simp [append_phi_operand, hvi, hdv] at h
        | constant c d => simp [append_phi_operand, hvi, hdv] at h
        | indexing a b => simp [append_phi_operand, hvi, hdv] at h
        | unop a => simp [append_phi_operand, hvi, hdv] at h
        | binop a b => simp [append_phi_operand, hvi, hdv] at h
  | tensor nm => simp [append_phi_operand] at h
  | constant c d => simp [append_phi_operand] at h
  | indexing a b => simp [append_phi_operand] at h
  | unop a => simp [append_phi_operand] at h
  | binop a b => simp [append_phi_operand] at h
  | phiRef pid => simp [append_phi_operand] at h

theorem patch_loop_phis_ok (phis : List NExpr) (cv : NExpr) :
    ∀ (s s' : PassState), patch_loop_phis phis (some cv) s = .ok ((), s') →
      s' = { s with phiArena := loopPhiPatchSpec s.varArena s.phiArena phis cv } := by
  induction phis with
  | nil =>
    intro s s' h
    simp only [patch_loop_phis, M.run_pure, Except.ok.injEq, Prod.mk.injEq,
      true_and] at h
    simp [loopPhiPatchSpec, ← h]
  | cons phi rest ih =>
    intro s s' h
    simp only [patch_loop_phis, M.run_bind] at h
    by_cases heq : phi = cv
    · simp only [heq, if_pos rfl, M.run_ite, M.run_pure] at h
      have := ih s s' h
      simpa [loopPhiPatchSpec, heq] using this
    · have hne : (some phi = some cv) = False := by simp [heq]
      simp only [M.run_ite, hne, if_false] at h
      cases happ : append_phi_operand phi cv s with
      | error e => rw [happ] at h; cases h
      | ok us2 =>
        obtain ⟨u, s2⟩ := us2
        rw [happ] at h
        obtain ⟨id, vi, pid, ops, hphi, hvi, hdv, hops, hs2⟩ :=
          append_phi_operand_ok phi cv s s2 happ
        have hrest := ih s2 s' h
        subst hs2
        subst hphi
        simp only [loopPhiPatchSpec, List.foldl_cons] at hrest ⊢
        simp [heq, phiTargetOf, hvi, hdv, hops] at hrest ⊢
        exact hrest

theorem findStatus_set_of_findFromTop (k : SrcExpr) (f : SsaVarStatus → SsaVarStatus) :
    ∀ (l : List SsaScope) (pos : Nat) (sc : SsaScope),
      findFromTop l k = some pos → l[pos]? = some sc →
      findStatus (l.set pos { sc with vars := mapUpdate sc.vars k f }) k =
        (mapFind sc.vars k).map (fun p => f p.2) := by
  intro l
  induction l with
  | nil => intro pos sc h _; simp [findFromTop] at h
  | cons sc0 rest ih =>
    intro pos sc h hsc
    by_cases h0 : (mapFind sc0.vars k).isSome = true
    · simp only [findFromTop, h0, if_true, Option.some.injEq] at h
      subst h
      simp only [List.getElem?_cons_zero, Option.some.injEq] at hsc
      subst hsc
      cases hf : mapFind sc0.vars k with
      | none => rw [hf] at h0; simp at h0
      | some p =>
        simp [findStatus, List.set_cons_zero, mapFind_update_self, hf]
    · simp only [findFromTop, h0, Bool.false_eq_true, if_false,
        Option.map_eq_some'] at h
      obtain ⟨q, hq, hpos⟩ := h
      subst hpos
      simp only [List.getElem?_cons_succ] at hsc
      have h0' : mapFind sc0.vars k = none := by
        cases hf : mapFind sc0.vars k with
        | none => rfl
        | some p => simp [hf] at h0
      simp only [List.set_cons_succ]
      simp [findStatus, h0', ih q sc hq hsc]

/-- Claim C1: the loop-merge step for one `(old_var, status)` entry of a
popped for-loop scope that has a visible binding in an enclosing scope.
Every recorded loop-phi that is not identical to the final in-loop value gets
that final value appended to its operand list (identical ones are skipped);
a post-loop phi with operands `[parent value, final in-loop value]` is
synthesised unconditionally, emitted through `add_def_after_current_stmt`,
renamed with a version suffix, and becomes the variable's visible current
value in the enclosing scopes. -/
theorem claim_C1_for_loop_merge (s s' : PassState) (k : SrcExpr)
    (st : SsaVarStatus) (cv pcv : NExpr) (cs : SsaScope)
    (restS : List SsaScope) (pos : Nat) (psc : SsaScope) (pk : SrcExpr)
    (pst : SsaVarStatus)
    (hs : s.scopes = cs :: restS)
    (hcv : st.current_value = some cv)
    (hfind : findFromTop (cs :: restS) k = some pos)
    (hpos : (cs :: restS)[pos]? = some psc)
    (hpst : mapFind psc.vars k = some (pk, pst))
    (hpcv : pst.current_value = some pcv)
    (hrun : for_loop_merge_entry k st s = .ok ((), s')) :
    s'.phiArena =
      loopPhiPatchSpec s.varArena s.phiArena st.for_loop_phi cv ++ [[pcv, cv]] ∧
    s'.pendingAfter = s.pendingAfter ++
      [.define (.var s.varArena.length) (some (.phiRef s.phiArena.length))] ∧
    s'.pendingBefore = s.pendingBefore ∧
    (s'.varArena[s.varArena.length]?).map VarInfo.name =
      some (keyName k ++ "_" ++ toString s.var_version_idx) ∧
    s'.var_version_idx = s.var_version_idx + 1 ∧
    visibleCv s' k = some (some (.var s.varArena.length)) := by
  have hlen := findFromTop_lt_length (cs :: restS) k pos hfind
  simp only [List.length_cons] at hlen
  have hpos' : restS.length - (restS.length - pos) = pos := by omega
  simp only [for_loop_merge_entry, get_local_var_nothrow, hs, hfind,
    M.run_bind, M.run_pure, List.length_cons, Nat.add_sub_cancel, hcv] at hrun
  cases hpatch : patch_loop_phis st.for_loop_phi (some cv) s with
  | error e => rw [hpatch] at hrun; cases hrun
  | ok us2 =>
    obtain ⟨u, s2⟩ := us2
    rw [hpatch] at hrun
    have hs2 := patch_loop_phis_ok st.for_loop_phi cv s s2 hpatch
    subst hs2
    have hplen : (loopPhiPatchSpec s.varArena s.phiArena st.for_loop_phi cv).length
        = s.phiArena.length := loopPhiPatchSpec_length s.varArena st.for_loop_phi cv s.phiArena
    by_cases hg : is_old_var_global k = true
    · simp [readRef, refPos, hs, Nat.add_sub_cancel,
        hpos', hpos, hpst, hpcv, hcv, make_phi,
        add_def_after_current_stmt, get_local_var_for_update, hg,
        get_local_var, get_local_var_nothrow, hfind, writeRef,
        rename_temp_var_with_version, M.run_bind, M.run_pure, M.run_throwM,
        hplen, get_append_singleton, set_append_singleton] at hrun
      subst hrun
      refine ⟨rfl, rfl, rfl, ?_, rfl, ?_⟩
      · simp [get_append_singleton]
      · simp only [visibleCv]
        rw [findStatus_set_of_findFromTop k _ (cs :: restS) pos psc hfind hpos]
        simp [hpst]
    · have hg' : is_old_var_global k = false := by
        cases hgg : is_old_var_global k with
        | false => rfl
        | true => rw [hgg] at hg; exact absurd rfl hg
      cases hcsk : mapFind cs.vars k with
      | some p =>
        simp [readRef, refPos, hs, Nat.add_sub_cancel,
          hpos', hpos, hpst, hpcv, hcv, make_phi,
          add_def_after_current_stmt, get_local_var_for_update, hg',
          hcsk, writeRef, rename_temp_var_with_version, M.run_bind, M.run_pure,
          M.run_throwM, hplen, get_append_singleton, set_append_singleton,
          Nat.sub_self] at hrun
        subst hrun
        refine ⟨rfl, rfl, rfl, ?_, rfl, ?_⟩
        · simp [get_append_singleton]
        · simp [visibleCv, findStatus, mapFind_update_self, hcsk]
      | none =>
        simp [readRef, refPos, hs, Nat.add_sub_cancel,
          hpos', hpos, hpst, hpcv, hcv, make_phi,
          add_def_after_current_stmt, get_local_var_for_update, hg',
          hcsk, insert_local_var, writeRef, rename_temp_var_with_version,
          M.run_bind, M.run_pure, M.run_throwM, hplen, get_append_singleton,
          set_append_singleton, Nat.sub_self] at hrun
        subst hrun
        refine ⟨rfl, rfl, rfl, ?_, rfl, ?_⟩
        · simp [get_append_singleton]
        · simp [visibleCv, findStatus, mapFind_update_self,
            mapFind_insert_self, hcsk]

/-- Witness for C1 at a concrete input: merging the popped entry
`k ↦ (cv = loop phi var 1, for_loop_phi = [var 1])` over `C1state`. -/
theorem claim_C1_witness :
    C1after.phiArena = [[.var 0], [.var 0, .var 1]] ∧
    C1after.pendingAfter = [.define (.var 2) (some (.phiRef 1))] ∧
    C1after.pendingBefore = [] ∧
    (C1after.varArena[2]?).map VarInfo.name = some "k_1" ∧
    C1after.var_version_idx = 2 ∧
    visibleCv C1after (.var "k" 3 false) = some (some (.var 2)) :=
  claim_C1_for_loop_merge C1state C1after (.var "k" 3 false)
    ⟨some (.var 1), 1, [.var 1]⟩ (.var 1) (.var 0)
    ⟨[(SrcExpr.var "k" 3 false, ⟨some (.var 0), 0, []⟩)], .normal, 0⟩ [] 0
    ⟨[(SrcExpr.var "k" 3 false, ⟨some (.var 0), 0, []⟩)], .normal, 0⟩
    (SrcExpr.var "k" 3 false) ⟨some (.var 0), 0, []⟩
    rfl rfl rfl rfl rfl rfl rfl

/-! ### C4 and C10: the if-else merges -/

/-- Claim C4: in the two-arm `if` merge, a non-global variable that the
parent scope binds but that only the then-arm assigned receives a merge phi
whose operand list is exactly the values collected from the arms that
mention it — here a single operand, the then-arm's final value; the parent
pre-`if` value is not added as a default operand. -/
theorem claim_C4_two_arm_one_sided (s : PassState) (k : SrcExpr)
    (st : SsaVarStatus) (v1 : NExpr) (cs : SsaScope) (restS : List SsaScope)
    (ek : SrcExpr) (est : SsaVarStatus)
    (hs : s.scopes = cs :: restS)
    (hcv : st.current_value = some v1)
    (hng : is_old_var_global k = false)
    (hfindk : mapFind cs.vars k = some (ek, est)) :
    ∃ s', if_merge_two_arm [(k, st)] [] s = .ok ((), s') ∧
      s'.phiArena = s.phiArena ++ [[v1]] ∧
      s'.pendingAfter = s.pendingAfter ++
        [.define (.var s.varArena.length) (some (.phiRef s.phiArena.length))] ∧
      s'.pendingBefore = s.pendingBefore ∧
      (s'.varArena[s.varArena.length]?).map VarInfo.name =
        some (keyName k ++ "_" ++ toString s.var_version_idx) ∧
      visibleCv s' k = some (some (.var s.varArena.length)) := by
  refine ⟨{ s with
      scopes := ({ cs with vars := mapUpdate (mapUpdate cs.vars k (fun x => { x with for_loop_phi := x.for_loop_phi ++ st.for_loop_phi })) k (fun x => { x with current_value := some (.var s.varArena.length) }) } :: restS),
      varArena := s.varArena ++ [⟨keyName k ++ "_" ++ toString s.var_version_idx, 0, false, false, some (.phiRef s.phiArena.length)⟩],
      phiArena := s.phiArena ++ [[v1]],
      var_version_idx := s.var_version_idx + 1,
      pendingAfter := s.pendingAfter ++ [.define (.var s.varArena.length) (some (.phiRef s.phiArena.length))] },
    ?_, rfl, rfl, rfl, ?_, ?_⟩
  · simp [if_merge_two_arm, collect_arm, emit_merged, collInsert, hcv, hng,
      hs, hfindk, get_local_var_for_update, writeRef, refPos, insert_local_var,
      make_phi, add_def_after_current_stmt, rename_temp_var_with_version,
      M.run_bind, M.run_pure, M.run_throwM, mapFind_update_self,
      get_append_singleton, set_append_singleton, Nat.sub_self]
  · simp [get_append_singleton]
  · simp [visibleCv, findStatus, mapFind_update_self, hfindk]

/-- Witness for C4 at a concrete input: parent binds `x ↦ var 0`, the
then-arm rebound it to `var 1`, the else-arm is empty. -/
theorem claim_C4_witness :
    ∃ s', if_merge_two_arm [(SrcExpr.var "x" 3 false, ⟨some (.var 1), 1, []⟩)] []
        ⟨[⟨[(SrcExpr.var "x" 3 false, ⟨some (.var 0), 0, []⟩)], .normal, 0⟩],
          [⟨"x", 3, false, false, none⟩, ⟨"x_0", 0, false, false, some (.constant 1 3)⟩],
          [], true, 1, [], []⟩ = .ok ((), s') ∧
      s'.phiArena = [] ++ [[.var 1]] ∧
      s'.pendingAfter = [] ++ [.define (.var 2) (some (.phiRef 0))] ∧
      s'.pendingBefore = [] ∧
      (s'.varArena[2]?).map VarInfo.name = some "x_1" ∧
      visibleCv s' (.var "x" 3 false) = some (some (.var 2)) :=
  claim_C4_two_arm_one_sided
    ⟨[⟨[(SrcExpr.var "x" 3 false, ⟨some (.var 0), 0, []⟩)], .normal, 0⟩],
      [⟨"x", 3, false, false, none⟩, ⟨"x_0", 0, false, false, some (.constant 1 3)⟩],
      [], true, 1, [], []⟩
    (.var "x" 3 false) ⟨some (.var 1), 1, []⟩ (.var 1)
    ⟨[(SrcExpr.var "x" 3 false, ⟨some (.var 0), 0, []⟩)], .normal, 0⟩ []
    (SrcExpr.var "x" 3 false) ⟨some (.var 0), 0, []⟩ rfl rfl rfl rfl

/-- Claim C10: asymmetry of the two `if` merges for a variable bound only
inside the then-arm with no binding in any enclosing scope.  In the two-arm
merge a one-operand phi is still emitted and a fresh binding for the
variable is created in the enclosing scope (through the update-lookup that
inserts into the top scope); in the then-only merge the entry is skipped
entirely — no phi, no binding, the state is returned unchanged. -/
theorem claim_C10_if_merge_asymmetry (s : PassState) (k : SrcExpr)
    (st : SsaVarStatus) (v1 : NExpr) (cs : SsaScope) (restS : List SsaScope)
    (hs : s.scopes = cs :: restS)
    (hcv : st.current_value = some v1)
    (hng : is_old_var_global k = false)
    (hnone : findFromTop (cs :: restS) k = none) :
    (∃ s', if_merge_two_arm [(k, st)] [] s = .ok ((), s') ∧
      s'.phiArena = s.phiArena ++ [[v1]] ∧
      s'.pendingAfter = s.pendingAfter ++
        [.define (.var s.varArena.length) (some (.phiRef s.phiArena.length))] ∧
      visibleCv s' k = some (some (.var s.varArena.length))) ∧
    if_merge_then_only [(k, st)] s = .ok ((), s) := by
  have hcsk : mapFind cs.vars k = none := by
    cases hf : mapFind cs.vars k with
    | none => rfl
    | some p => simp [findFromTop, hf] at hnone
  constructor
  · refine ⟨{ s with
        scopes := ({ cs with vars := mapUpdate (mapUpdate (mapInsertNoReplace cs.vars k ⟨none, restS.length, []⟩) k (fun x => { x with for_loop_phi := x.for_loop_phi ++ st.for_loop_phi })) k (fun x => { x with current_value := some (.var s.varArena.length) }) } :: restS),
        varArena := s.varArena ++ [⟨keyName k ++ "_" ++ toString s.var_version_idx, 0, false, false, some (.phiRef s.phiArena.length)⟩],
        phiArena := s.phiArena ++ [[v1]],
        var_version_idx := s.var_version_idx + 1,
        pendingAfter := s.pendingAfter ++ [.define (.var s.varArena.length) (some (.phiRef s.phiArena.length))] },
      ?_, rfl, rfl, ?_⟩
    · simp [if_merge_two_arm, collect_arm, emit_merged, collInsert, hcv, hng,
        hs, hcsk, get_local_var_for_update, writeRef, refPos, insert_local_var,
        make_phi, add_def_after_current_stmt, rename_temp_var_with_version,
        M.run_bind, M.run_pure, M.run_throwM, mapFind_update_self,
        mapFind_insert_self, get_append_singleton, set_append_singleton,
        Nat.sub_self]
    · simp [visibleCv, findStatus, mapFind_update_self, mapFind_insert_self,
        hcsk]
  · simp [if_merge_then_only, get_local_var_nothrow, hs, hnone, M.run_bind,
      M.run_pure]

/-- Witness for C10 at a concrete input: `y` was defined only inside the
then-arm (final value `var 0`), the enclosing scope has no binding for it. -/
theorem claim_C10_witness :
    (∃ s', if_merge_two_arm [(SrcExpr.var "y" 3 false, ⟨some (.var 0), 1, []⟩)] []
        ⟨[⟨[], .normal, 0⟩], [⟨"y_0", 0, false, false, some (.constant 1 3)⟩],
          [], true, 1, [], []⟩ = .ok ((), s') ∧
      s'.phiArena = [] ++ [[.var 0]] ∧
      s'.pendingAfter = [] ++ [.define (.var 1) (some (.phiRef 0))] ∧
      visibleCv s' (.var "y" 3 false) = some (some (.var 1))) ∧
    if_merge_then_only [(SrcExpr.var "y" 3 false, ⟨some (.var 0), 1, []⟩)]
      ⟨[⟨[], .normal, 0⟩], [⟨"y_0", 0, false, false, some (.constant 1 3)⟩],
        [], true, 1, [], []⟩ =
      .ok ((), ⟨[⟨[], .normal, 0⟩], [⟨"y_0", 0, false, false, some (.constant 1 3)⟩],
        [], true, 1, [], []⟩) :=
  claim_C10_if_merge_asymmetry
    ⟨[⟨[], .normal, 0⟩], [⟨"y_0", 0, false, false, some (.constant 1 3)⟩],
      [], true, 1, [], []⟩
    (.var "y" 3 false) ⟨some (.var 0), 1, []⟩ (.var 0) ⟨[], .normal, 0⟩ []
    rfl rfl rfl rfl

/-! ### C7: flattening invariant -/

theorem dispatchExpr_eq (e : SrcExpr) :
    dispatchExpr e = (do
      let s0 ← getS
      setS { s0 with need_flatten := true }
      let ret ← visitExpr e
      if s0.need_flatten && !(isVT ret) then add_def ret
      else pure ret) := by
  cases e <;> rfl

theorem flatE_of_isLeaf (e : NExpr) (h : isLeaf e = true) : flatE e = true := by
  cases e <;> simp_all [isLeaf, flatE]

theorem flatE_var (i : Nat) : flatE (.var i) = true := rfl

theorem flatE_phiRef (i : Nat) : flatE (.phiRef i) = true := rfl

theorem flatE_tensor (n : String) : flatE (.tensor n) = true := rfl

theorem isLeaf_of_isVT (e : NExpr) (h : isVT e = true) : isLeaf e = true := by
  cases e <;> simp_all [isVT, isLeaf]

theorem mem_of_getElem_opt {α : Type} :
    ∀ (l : List α) (n : Nat) (a : α), l[n]? = some a → a ∈ l := by
  intro l
  induction l with
  | nil => intro n a h; simp at h
  | cons x xs ih =>
    intro n a h
    cases n with
    | zero => simp at h; simp [h]
    | succ m =>
      simp only [List.getElem?_cons_succ] at h
      exact List.mem_cons_of_mem x (ih m a h)

theorem mapFind_mem (k : SrcExpr) :
    ∀ (m : List (SrcExpr × SsaVarStatus)) (p : SrcExpr × SsaVarStatus),
      mapFind m k = some p → p ∈ m := by
  intro m
  induction m with
  | nil => intro p h; simp [mapFind] at h
  | cons q rest ih =>
    intro p h
    simp only [mapFind] at h
    by_cases h1 : varCmpLt k q.1 = true
    · simp [h1] at h
    · by_cases h2 : varCmpLt q.1 k = true
      · simp only [h1, h2, Bool.false_eq_true, if_false, if_true] at h
        exact List.mem_cons_of_mem q (ih p h)
      · simp only [h1, h2, Bool.false_eq_true, if_false,
          Option.some.injEq] at h
        simp [← h]

theorem all_statusOK_insert (k : SrcExpr) (v : SsaVarStatus)
    (hv : statusOK v = true) :
    ∀ (m : List (SrcExpr × SsaVarStatus)),
      m.all (fun p => statusOK p.2) = true →
      (mapInsertNoReplace m k v).all (fun p => statusOK p.2) = true := by
  intro m
  induction m with
  | nil => intro _; simp [mapInsertNoReplace, hv]
  | cons q rest ih =>
    intro hm
    simp only [List.all_cons, Bool.and_eq_true] at hm
    by_cases h1 : varCmpLt k q.1 = true
    · simp [mapInsertNoReplace, h1, hv, hm.1, hm.2]
    · by_cases h2 : varCmpLt q.1 k = true
      · simp [mapInsertNoReplace, h1, h2, hm.1, ih hm.2]
      · simp [mapInsertNoReplace, h1, h2, hm.1, hm.2]

theorem all_statusOK_update (k : SrcExpr) (f : SsaVarStatus → SsaVarStatus)
    (hf : ∀ st, statusOK st = true → statusOK (f st) = true)
    (m : List (SrcExpr × SsaVarStatus))
    (hm : m.all (fun p => statusOK p.2) = true) :
    (mapUpdate m k f).all (fun p => statusOK p.2) = true := by
  induction m with
  | nil => rfl
  | cons q rest ih =>
    simp only [List.all_cons, Bool.and_eq_true] at hm
    have hrest := ih hm.2
    simp only [mapUpdate, List.map_cons] at hrest ⊢
    by_cases h1 : keyEqv q.1 k = true
    · simp only [h1, if_true, List.all_cons, Bool.and_eq_true]
      exact ⟨hf q.2 hm.1, hrest⟩
    · simp only [h1, Bool.false_eq_true, if_false, List.all_cons,
        Bool.and_eq_true]
      exact ⟨hm.1, hrest⟩

theorem visit_tensor_inv (t : SrcExpr) (s s' : PassState) (r : NExpr)
    (hInv : Inv s) (h : visit_tensor t s = .ok (r, s')) :
    Inv s' ∧ isLeaf r = true ∧ s' = s := by
  simp only [visit_tensor, get_local_var, get_local_var_nothrow, readRef,
    refPos, M.run_bind, M.run_pure, M.run_getS, M.run_throwM,
    List.get?_eq_getElem?] at h
  cases hft : findFromTop s.scopes t with
  | none => rw [hft] at h; simp [throwM] at h
  | some pos =>
    rw [hft] at h
    simp only [M.run_pure] at h
    cases hsc : s.scopes[s.scopes.length - 1 - (s.scopes.length - 1 - pos)]? with
    | none => rw [hsc] at h; simp at h
    | some sc =>
      simp only [hsc] at h
      cases hmf : mapFind sc.vars t with
      | none => simp only [hmf] at h; simp at h
      | some p =>
        simp only [hmf] at h
        cases hcv : p.2.current_value with
        | none => simp only [hcv] at h; simp [M.run_throwM, throwM] at h
        | some cv =>
          simp only [hcv] at h
          simp only [M.run_pure, Except.ok.injEq, Prod.mk.injEq] at h
          obtain ⟨hr, hs'⟩ := h
          subst hr
          subst hs'
          refine ⟨hInv, ?_, rfl⟩
          have hscmem := mem_of_getElem_opt _ _ _ hsc
          have hpmem := mapFind_mem t sc.vars p hmf
          have hok := hInv.1 sc hscmem
          simp only [scopeOK, List.all_eq_true] at hok
          have := hok p hpmem
          simp only [statusOK, hcv] at this
          exact this

theorem visit_var_inv (v : SrcExpr) (s s' : PassState) (r : NExpr)
    (hInv : Inv s) (h : visit_var v s = .ok (r, s')) :
    Inv s' ∧ isLeaf r = true ∧ s'.need_flatten = s.need_flatten := by
  simp only [visit_var, get_local_var, get_local_var_nothrow, readRef,
    refPos, M.run_bind, M.run_pure, M.run_getS, M.run_throwM,
    List.get?_eq_getElem?] at h
  cases hft : findFromTop s.scopes v with
  | none => rw [hft] at h; simp [throwM] at h
  | some pos =>
    simp only [hft] at h
    cases hsc : s.scopes[s.scopes.length - 1 - (s.scopes.length - 1 - pos)]? with
    | none => rw [hsc] at h; simp at h
    | some sc =>
      simp only [hsc] at h
      cases hmf : mapFind sc.vars v with
      | none => simp only [hmf] at h; simp at h
      | some p =>
        simp only [hmf] at h
        cases hcv : p.2.current_value with
        | none => simp only [hcv] at h; simp [throwM] at h
        | some cv =>
          simp only [hcv] at h
          simp only [M.run_bind, M.run_getS] at h
          have hcvleaf : isLeaf cv = true := by
            have hscmem := mem_of_getElem_opt _ _ _ hsc
            have hpmem := mapFind_mem v sc.vars p hmf
            have hok := hInv.1 sc hscmem
            simp only [scopeOK, List.all_eq_true] at hok
            have := hok p hpmem
            simp only [statusOK, hcv] at this
            exact this
          cases hscs : s.scopes with
          | nil => rw [hscs] at h; simp [throwM] at h
          | cons cs restS =>
            simp only [hscs] at h
            by_cases hg : isGlobalVal s cv = true
            · simp only [hg, Bool.not_true, Bool.false_eq_true, if_false,
                add_def, Except.ok.injEq, Prod.mk.injEq] at h
              obtain ⟨hr, hs'⟩ := h
              subst hr
              subst hs'
              obtain ⟨h1, h2, h3, h4⟩ := hInv
              refine ⟨⟨h1, h2, ?_, h4⟩, rfl, rfl⟩
              intro t ht
              simp only [List.mem_append, List.mem_singleton] at ht
              cases ht with
              | inl hin => exact h3 t hin
              | inr heq =>
                subst heq
                simp [flatS, flatE_var, flatE_of_isLeaf cv hcvleaf]
            · simp only [hg, Bool.not_false, if_true, Bool.false_eq_true] at h
              cases hds : s.scopes[s.scopes.length - 1 - p.2.defined_scope_idx]? with
              | none =>
                rw [hscs] at hds
                simp only [hds] at h
                simp [throwM] at h
              | some ds =>
                rw [hscs] at hds
                simp only [hds] at h
                by_cases hlt : ds.for_depth < cs.for_depth
                · simp only [hlt, if_true, make_phi, add_def,
                    rename_temp_var_with_version, insert_local_var, writeRef,
                    refPos, M.run_bind, M.run_pure, M.run_throwM, hscs,
                    List.get?_eq_getElem?, get_append_singleton,
                    set_append_singleton, List.length_cons,
                    Nat.add_sub_cancel, Nat.sub_self, Bool.not_false,
                    Bool.and_self, if_true, List.getElem?_cons_zero,
                    List.set_cons_zero, Except.ok.injEq, Prod.mk.injEq] at h
                  obtain ⟨hr, hs'⟩ := h
                  subst hr
                  subst hs'
                  obtain ⟨h1, h2, h3, h4⟩ := hInv
                  have hcsok : scopeOK cs = true := by
                    apply h1
                    rw [hscs]
                    exact List.mem_cons_self cs restS
                  refine ⟨⟨?_, ?_, ?_, h4⟩, rfl, rfl⟩
                  · intro x hx
                    simp only [List.mem_cons] at hx
                    cases hx with
                    | inl heq =>
                      subst heq
                      simp only [scopeOK]
                      apply all_statusOK_update
                      · intro st hst
                        simpa [statusOK] using hst
                      · apply all_statusOK_insert
                        · simp [statusOK, isLeaf]
                        · simpa [scopeOK] using hcsok
                    | inr hin =>
                      apply h1
                      rw [hscs]
                      exact List.mem_cons_of_mem cs hin
                  · intro ops hops
                    simp only [List.mem_append, List.mem_singleton] at hops
                    cases hops with
                    | inl hin => exact h2 ops hin
                    | inr heq =>
                      subst heq
                      simp [hcvleaf]
                  · intro t ht
                    simp only [List.mem_append, List.mem_singleton] at ht
                    cases ht with
                    | inl hin => exact h3 t hin
                    | inr heq =>
                      subst heq
                      simp [flatS, flatE_var, flatE_phiRef]
                · simp only [hlt, if_false, M.run_pure, Except.ok.injEq,
                    Prod.mk.injEq] at h
                  obtain ⟨hr, hs'⟩ := h
                  subst hr
                  subst hs'
                  exact ⟨hInv, hcvleaf, rfl⟩

theorem Inv_set_flag (s : PassState) (b : Bool) :
    Inv { s with need_flatten := b } ↔ Inv s := Iff.rfl

theorem dispatch_wrapper_inv (e : SrcExpr) (s s' : PassState) (r : NExpr)
    (hvisit : ∀ rv sv', visitExpr e { s with need_flatten := true } = .ok (rv, sv') →
      Inv sv' ∧ flatE rv = true ∧ sv'.need_flatten = true)
    (h : dispatchExpr e s = .ok (r, s')) :
    Inv s' ∧ flatE r = true ∧ s'.need_flatten = true ∧
      (s.need_flatten = true → isVT r = true) := by
  rw [dispatchExpr_eq] at h
  simp only [M.run_bind, M.run_getS, M.run_setS] at h
  cases hv : visitExpr e { s with need_flatten := true } with
  | error err => rw [hv] at h; simp at h
  | ok p =>
    obtain ⟨rv, s2⟩ := p
    simp only [hv] at h
    obtain ⟨hI2, hfr, hfl⟩ := hvisit rv s2 hv
    by_cases hw : (s.need_flatten && !(isVT rv)) = true
    · simp only [M.run_ite, hw, if_true, add_def, Except.ok.injEq,
        Prod.mk.injEq] at h
      obtain ⟨hr, hs'⟩ := h
      subst hr
      subst hs'
      obtain ⟨h1, h2, h3, h4⟩ := hI2
      refine ⟨⟨h1, h2, ?_, h4⟩, rfl, hfl, fun _ => rfl⟩
      intro t ht
      simp only [List.mem_append, List.mem_singleton] at ht
      cases ht with
      | inl hin => exact h3 t hin
      | inr heq =>
        subst heq
        simp [flatS, flatE_var, hfr]
    · simp only [M.run_ite, hw, Bool.false_eq_true, if_false, M.run_pure,
        Except.ok.injEq, Prod.mk.injEq] at h
      obtain ⟨hr, hs'⟩ := h
      subst hr
      subst hs'
      refine ⟨hI2, hfr, hfl, ?_⟩
      intro hflag
      simp only [hflag, Bool.true_and, Bool.not_eq_true',
        Bool.not_eq_false] at hw
      simpa using hw

theorem dispatchExpr_inv :
    ∀ (e : SrcExpr) (s s' : PassState) (r : NExpr), Inv s →
      dispatchExpr e s = .ok (r, s') →
      Inv s' ∧ flatE r = true ∧ s'.need_flatten = true ∧
        (s.need_flatten = true → isVT r = true) := by
  intro e
  induction e with
  | var n dt g =>
    intro s s' r hInv h
    refine dispatch_wrapper_inv _ s s' r ?_ h
    intro rv sv' hv
    simp only [visitExpr] at hv
    obtain ⟨hI, hleaf, hfl⟩ :=
      visit_var_inv _ _ _ _ ((Inv_set_flag s true).mpr hInv) hv
    exact ⟨hI, flatE_of_isLeaf rv hleaf, hfl⟩
  | tensor n =>
    intro s s' r hInv h
    refine dispatch_wrapper_inv _ s s' r ?_ h
    intro rv sv' hv
    simp only [visitExpr] at hv
    obtain ⟨hI, hleaf, hfl⟩ :=
      visit_tensor_inv _ _ _ _ ((Inv_set_flag s true).mpr hInv) hv
    subst hfl
    exact ⟨hI, flatE_of_isLeaf rv hleaf, rfl⟩
  | constant c dt =>
    intro s s' r hInv h
    refine dispatch_wrapper_inv _ s s' r ?_ h
    intro rv sv' hv
    simp only [visitExpr, M.run_pure, Except.ok.injEq, Prod.mk.injEq] at hv
    obtain ⟨hr, hs'⟩ := hv
    subst hr
    subst hs'
    exact ⟨(Inv_set_flag s true).mpr hInv, rfl, rfl⟩
  | indexing b i ihb ihi =>
    intro s s' r hInv h
    refine dispatch_wrapper_inv _ s s' r ?_ h
    intro rv sv' hv
    simp only [visitExpr, M.run_bind] at hv
    cases hb : dispatchExpr b { s with need_flatten := true } with
    | error err => rw [hb] at hv; simp at hv
    | ok pb =>
      obtain ⟨b', sb⟩ := pb
      simp only [hb] at hv
      obtain ⟨hIb, _, hflb, hVTb⟩ :=
        ihb _ _ _ ((Inv_set_flag s true).mpr hInv) hb
      cases hi : dispatchExpr i sb with
      | error err => rw [hi] at hv; simp at hv
      | ok pi =>
        obtain ⟨i', si⟩ := pi
        simp only [hi, M.run_pure, Except.ok.injEq, Prod.mk.injEq] at hv
        obtain ⟨hr, hs'⟩ := hv
        subst hr
        subst hs'
        obtain ⟨hIi, _, hfli, hVTi⟩ := ihi _ _ _ hIb hi
        refine ⟨hIi, ?_, hfli⟩
        simp [flatE, isLeaf_of_isVT b' (hVTb rfl),
          isLeaf_of_isVT i' (hVTi hflb)]
  | unop a iha =>
    intro s s' r hInv h
    refine dispatch_wrapper_inv _ s s' r ?_ h
    intro rv sv' hv
    simp only [visitExpr, M.run_bind] at hv
    cases ha : dispatchExpr a { s with need_flatten := true } with
    | error err => rw [ha] at hv; simp at hv
    | ok pa =>
      obtain ⟨a', sa⟩ := pa
      simp only [ha, M.run_pure, Except.ok.injEq, Prod.mk.injEq] at hv
      obtain ⟨hr, hs'⟩ := hv
      subst hr
      subst hs'
      obtain ⟨hIa, _, hfla, hVTa⟩ :=
        iha _ _ _ ((Inv_set_flag s true).mpr hInv) ha
      exact ⟨hIa, by simp [flatE, isLeaf_of_isVT a' (hVTa rfl)], hfla⟩
  | binop a b iha ihb =>
    intro s s' r hInv h
    refine dispatch_wrapper_inv _ s s' r ?_ h
    intro rv sv' hv
    simp only [visitExpr, M.run_bind] at hv
    cases ha : dispatchExpr a { s with need_flatten := true } with
    | error err => rw [ha] at hv; simp at hv
    | ok pa =>
      obtain ⟨a', sa⟩ := pa
      simp only [ha] at hv
      obtain ⟨hIa, _, hfla, hVTa⟩ :=
        iha _ _ _ ((Inv_set_flag s true).mpr hInv) ha
      cases hb : dispatchExpr b sa with
      | error err => rw [hb] at hv; simp at hv
      | ok pb =>
        obtain ⟨b', sb⟩ := pb
        simp only [hb, M.run_pure, Except.ok.injEq, Prod.mk.injEq] at hv
        obtain ⟨hr, hs'⟩ := hv
        subst hr
        subst hs'
        obtain ⟨hIb, _, hflb, hVTb⟩ := ihb _ _ _ hIa hb
        refine ⟨hIb, ?_, hflb⟩
        simp [flatE, isLeaf_of_isVT a' (hVTa rfl),
          isLeaf_of_isVT b' (hVTb hfla)]

theorem readRef_ok (rf : StatusRef) (s : PassState) (st : SsaVarStatus)
    (s2 : PassState) (h : readRef rf s = .ok (st, s2)) :
    s2 = s ∧ ∃ sc, sc ∈ s.scopes ∧ ∃ p, p ∈ sc.vars ∧ p.2 = st := by
  simp only [readRef, List.get?_eq_getElem?] at h
  cases hg : s.scopes[refPos s rf]? with
  | none => rw [hg] at h; simp at h
  | some sc =>
    simp only [hg] at h
    cases hm : mapFind sc.vars rf.key with
    | none => simp only [hm] at h; simp at h
    | some p =>
      simp only [hm, Except.ok.injEq, Prod.mk.injEq] at h
      exact ⟨h.2.symm, sc, mem_of_getElem_opt _ _ _ hg, p,
        mapFind_mem _ _ _ hm, h.1⟩

theorem statusOK_of_Inv (s : PassState) (hInv : Inv s) (sc : SsaScope)
    (hsc : sc ∈ s.scopes) (p : SrcExpr × SsaVarStatus) (hp : p ∈ sc.vars) :
    statusOK p.2 = true := by
  have := hInv.1 sc hsc
  simp only [scopeOK, List.all_eq_true] at this
  exact this p hp

theorem writeRef_inv (rf : StatusRef) (f : SsaVarStatus → SsaVarStatus)
    (s s2 : PassState)
    (hf : ∀ st, statusOK st = true → statusOK (f st) = true)
    (hInv : Inv s) (h : writeRef rf f s = .ok ((), s2)) :
    Inv s2 ∧ s2.need_flatten = s.need_flatten ∧ s2.varArena = s.varArena ∧
      s2.phiArena = s.phiArena ∧ s2.pendingBefore = s.pendingBefore ∧
      s2.pendingAfter = s.pendingAfter := by
  simp only [writeRef, List.get?_eq_getElem?] at h
  cases hg : s.scopes[refPos s rf]? with
  | none => rw [hg] at h; simp at h
  | some sc =>
    simp only [hg, Except.ok.injEq, Prod.mk.injEq, true_and] at h
    subst h
    obtain ⟨h1, h2, h3, h4⟩ := hInv
    refine ⟨⟨?_, h2, h3, h4⟩, rfl, rfl, rfl, rfl, rfl⟩
    intro x hx
    cases List.mem_or_eq_of_mem_set hx with
    | inl hin => exact h1 x hin
    | inr heq =>
      subst heq
      simp only [scopeOK]
      exact all_statusOK_update rf.key f hf sc.vars
        (by simpa [scopeOK] using h1 sc (mem_of_getElem_opt _ _ _ hg))

theorem rename_inv (v : NExpr) (oldName : String) (s s2 : PassState)
    (hInv : Inv s) (h : rename_temp_var_with_version v oldName s = .ok ((), s2)) :
    Inv s2 ∧ s2.need_flatten = s.need_flatten ∧ s2.scopes = s.scopes ∧
      s2.phiArena = s.phiArena ∧ s2.pendingBefore = s.pendingBefore ∧
      s2.pendingAfter = s.pendingAfter := by
  cases v with
  | var id =>
    simp only [rename_temp_var_with_version, List.get?_eq_getElem?] at h
    cases hg : s.varArena[id]? with
    | none => rw [hg] at h; simp at h
    | some vi =>
      simp only [hg] at h
      by_cases hl : (!vi.isGlobal && !vi.isParam) = true
      · simp only [hl, if_true, Except.ok.injEq, Prod.mk.injEq, true_and] at h
        subst h
        exact ⟨hInv, rfl, rfl, rfl, rfl, rfl⟩
      · simp only [hl, Bool.false_eq_true, if_false, Except.ok.injEq,
          Prod.mk.injEq, true_and] at h
        subst h
        exact ⟨hInv, rfl, rfl, rfl, rfl, rfl⟩
  | tensor nm => simp [rename_temp_var_with_version] at h
  | constant c d => simp [rename_temp_var_with_version] at h
  | indexing a b => simp [rename_temp_var_with_version] at h
  | unop a => simp [rename_temp_var_with_version] at h
  | binop a b => simp [rename_temp_var_with_version] at h
  | phiRef pid => simp [rename_temp_var_with_version] at h

theorem get_local_var_for_update_inv (k : SrcExpr) (s s2 : PassState)
    (ref : StatusRef) (hInv : Inv s)
    (h : get_local_var_for_update k s = .ok (ref, s2)) :
    Inv s2 ∧ s2.need_flatten = s.need_flatten ∧ s2.varArena = s.varArena ∧
      s2.phiArena = s.phiArena ∧ s2.pendingBefore = s.pendingBefore ∧
      s2.pendingAfter = s.pendingAfter := by
  simp only [get_local_var_for_update] at h
  by_cases hg : is_old_var_global k = true
  · simp only [hg, if_true] at h
    simp only [get_local_var, get_local_var_nothrow, M.run_bind, M.run_pure,
      M.run_throwM] at h
    cases hf : findFromTop s.scopes k with
    | none => rw [hf] at h; simp [throwM] at h
    | some pos =>
      simp only [hf, M.run_pure, Except.ok.injEq, Prod.mk.injEq] at h
      rw [← h.2]
      exact ⟨hInv, rfl, rfl, rfl, rfl, rfl⟩
  · simp only [hg, Bool.false_eq_true, if_false] at h
    cases hscs : s.scopes with
    | nil => rw [hscs] at h; simp at h
    | cons cs restS =>
      simp only [hscs] at h
      by_cases hfc : (mapFind cs.vars k).isSome = true
      · simp only [hfc, if_true, Except.ok.injEq, Prod.mk.injEq] at h
        rw [← h.2]
        exact ⟨hInv, rfl, rfl, rfl, rfl, rfl⟩
      · simp only [hfc, Bool.false_eq_true, if_false, insert_local_var,
          hscs, Except.ok.injEq, Prod.mk.injEq] at h
        rw [← h.2]
        obtain ⟨h1, h2, h3, h4⟩ := hInv
        refine ⟨⟨?_, h2, h3, h4⟩, rfl, rfl, rfl, rfl, rfl⟩
        intro x hx
        simp only [List.mem_cons] at hx
        cases hx with
        | inl heq =>
          subst heq
          simp only [scopeOK]
          apply all_statusOK_insert
          · rfl
          · simpa [scopeOK] using h1 cs (by rw [hscs]; exact List.mem_cons_self cs restS)
        | inr hin =>
          exact h1 x (by rw [hscs]; exact List.mem_cons_of_mem cs hin)

theorem add_def_inv (e : NExpr) (s s2 : PassState) (r : NExpr)
    (hInv : Inv s) (hfe : flatE e = true) (h : add_def e s = .ok (r, s2)) :
    Inv s2 ∧ s2.need_flatten = s.need_flatten ∧ s2.scopes = s.scopes ∧
      isVT r = true := by
  simp only [add_def, Except.ok.injEq, Prod.mk.injEq] at h
  obtain ⟨hr, hs2⟩ := h
  subst hr
  subst hs2
  obtain ⟨h1, h2, h3, h4⟩ := hInv
  refine ⟨⟨h1, h2, ?_, h4⟩, rfl, rfl, rfl⟩
  intro t ht
  simp only [List.mem_append, List.mem_singleton] at ht
  cases ht with
  | inl hin => exact h3 t hin
  | inr heq =>
    subst heq
    simp [flatS, flatE_var, hfe]

theorem add_def_after_inv (e : NExpr) (s s2 : PassState) (r : NExpr)
    (hInv : Inv s) (hfe : flatE e = true)
    (h : add_def_after_current_stmt e s = .ok (r, s2)) :
    Inv s2 ∧ s2.need_flatten = s.need_flatten ∧ s2.scopes = s.scopes ∧
      isVT r = true := by
  simp only [add_def_after_current_stmt, Except.ok.injEq, Prod.mk.injEq] at h
  obtain ⟨hr, hs2⟩ := h
  subst hr
  subst hs2
  obtain ⟨h1, h2, h3, h4⟩ := hInv
  refine ⟨⟨h1, h2, h3, ?_⟩, rfl, rfl, rfl⟩
  intro t ht
  simp only [List.mem_append, List.mem_singleton] at ht
  cases ht with
  | inl hin => exact h4 t hin
  | inr heq =>
    subst heq
    simp [flatS, flatE_var, hfe]

theorem make_phi_inv (ops : List NExpr) (s s2 : PassState) (r : NExpr)
    (hInv : Inv s) (hops : ops.all isLeaf = true)
    (h : make_phi ops s = .ok (r, s2)) :
    Inv s2 ∧ s2.need_flatten = s.need_flatten ∧ s2.scopes = s.scopes ∧
      flatE r = true := by
  simp only [make_phi, Except.ok.injEq, Prod.mk.injEq] at h
  obtain ⟨hr, hs2⟩ := h
  subst hr
  subst hs2
  obtain ⟨h1, h2, h3, h4⟩ := hInv
  refine ⟨⟨h1, ?_, h3, h4⟩, rfl, rfl, rfl⟩
  intro x hx
  simp only [List.mem_append, List.mem_singleton] at hx
  cases hx with
  | inl hin => exact h2 x hin
  | inr heq => subst heq; exact hops

theorem insert_local_var_inv (k : SrcExpr) (nv : Option NExpr)
    (s s2 : PassState) (ref : StatusRef) (hInv : Inv s)
    (hnv : statusOK ⟨nv, s.scopes.length - 1, []⟩ = true)
    (h : insert_local_var k nv s = .ok (ref, s2)) :
    Inv s2 ∧ s2.need_flatten = s.need_flatten ∧ s2.varArena = s.varArena ∧
      s2.phiArena = s.phiArena ∧ s2.pendingBefore = s.pendingBefore ∧
      s2.pendingAfter = s.pendingAfter := by
  cases hscs : s.scopes with
  | nil => simp [insert_local_var, hscs] at h
  | cons cs restS =>
    simp only [insert_local_var, hscs, Except.ok.injEq, Prod.mk.injEq] at h
    rw [← h.2]
    obtain ⟨h1, h2, h3, h4⟩ := hInv
    refine ⟨⟨?_, h2, h3, h4⟩, rfl, rfl, rfl, rfl, rfl⟩
    intro x hx
    simp only [List.mem_cons] at hx
    cases hx with
    | inl heq =>
      subst heq
      simp only [scopeOK]
      apply all_statusOK_insert
      · rw [hscs] at hnv; exact hnv
      · simpa [scopeOK] using h1 cs (by rw [hscs]; exact List.mem_cons_self cs restS)
    | inr hin =>
      exact h1 x (by rw [hscs]; exact List.mem_cons_of_mem cs hin)

theorem visit_define_inv (v : SrcExpr) (i : Option SrcExpr) (s s' : PassState)
    (r : Option NStmt) (hInv : Inv s) (h : visit_define v i s = .ok (r, s')) :
    Inv s' ∧ (s.need_flatten = true → s'.need_flatten = true) ∧
      ∀ x, r = some x → flatS x = true := by
  simp only [visit_define, M.run_bind] at h
  cases hins : insert_local_var v none s with
  | error err => rw [hins] at h; simp at h
  | ok pref =>
    obtain ⟨ref, s1⟩ := pref
    simp only [hins] at h
    obtain ⟨hI1, hfl1, hva1, hph1, hpb1, hpa1⟩ :=
      insert_local_var_inv v none s s1 ref hInv (by simp [statusOK]) hins
    cases v with
    | var n dt g =>
      by_cases hcond : (!g && i.isNone) = true
      · simp only [hcond, if_true, M.run_bind, M.run_pure] at h
        cases hw : writeRef ref
            (fun x => { x with current_value := some (NExpr.constant 0 dt) }) s1 with
        | error err => rw [hw] at h; simp at h
        | ok pw =>
          obtain ⟨u, s2⟩ := pw
          simp only [hw, M.run_pure, Except.ok.injEq, Prod.mk.injEq] at h
          obtain ⟨hr, hs'⟩ := h
          subst hr
          subst hs'
          obtain ⟨hI2, hfl2, _, _, _, _⟩ := writeRef_inv ref _ s1 s2
            (fun st _ => by simp [statusOK, isLeaf]) hI1 hw
          refine ⟨hI2, fun hf => by rw [hfl2, hfl1]; exact hf, ?_⟩
          intro x hx
          cases hx
      · simp only [hcond, Bool.false_eq_true, if_false, M.run_bind,
          allocVar, M.run_pure] at h
        cases hw : writeRef ref
            (fun x => { x with current_value := some (NExpr.var s1.varArena.length) })
            { s1 with varArena := s1.varArena ++ [⟨n, dt, g, false, none⟩] } with
        | error err => rw [hw] at h; simp at h
        | ok pw =>
          obtain ⟨u, s3⟩ := pw
          simp only [hw] at h
          have hI2 : Inv { s1 with varArena := s1.varArena ++ [⟨n, dt, g, false, none⟩] } := hI1
          obtain ⟨hI3, hfl3, _, _, _, _⟩ := writeRef_inv ref _ _ s3
            (fun st _ => by simp [statusOK, isLeaf]) hI2 hw
          cases i with
          | none =>
            simp only [M.run_pure, Except.ok.injEq, Prod.mk.injEq] at h
            obtain ⟨hr, hs'⟩ := h
            subst hr
            subst hs'
            refine ⟨hI3, fun hf => by rw [hfl3]; exact hfl1 ▸ hf, ?_⟩
            intro x hx
            simp only [Option.some.injEq] at hx
            subst hx
            simp [flatS, flatE_var]
          | some init =>
            simp only [M.run_bind, M.run_modifyS] at h
            cases hd : dispatchExpr init { s3 with need_flatten := false } with
            | error err => rw [hd] at h; simp at h
            | ok pd =>
              obtain ⟨i', s4⟩ := pd
              simp only [hd, M.run_pure, Except.ok.injEq, Prod.mk.injEq] at h
              obtain ⟨hr, hs'⟩ := h
              subst hr
              subst hs'
              obtain ⟨hI4, hfe4, hfl4, _⟩ :=
                dispatchExpr_inv init _ _ _ ((Inv_set_flag s3 false).mpr hI3) hd
              refine ⟨hI4, fun _ => hfl4, ?_⟩
              intro x hx
              simp only [Option.some.injEq] at hx
              subst hx
              simp [flatS, flatE_var, hfe4]
    | tensor name =>
      simp only [M.run_bind] at h
      cases hw : writeRef ref
          (fun x => { x with current_value := some (NExpr.tensor name) }) s1 with
      | error err => rw [hw] at h; simp at h
      | ok pw =>
        obtain ⟨u, s3⟩ := pw
        simp only [hw] at h
        obtain ⟨hI3, hfl3, _, _, _, _⟩ := writeRef_inv ref _ s1 s3
          (fun st _ => by simp [statusOK, isLeaf]) hI1 hw
        cases i with
        | none =>
          simp only [M.run_pure, Except.ok.injEq, Prod.mk.injEq] at h
          obtain ⟨hr, hs'⟩ := h
          subst hr
          subst hs'
          refine ⟨hI3, fun hf => by rw [hfl3]; exact hfl1 ▸ hf, ?_⟩
          intro x hx
          simp only [Option.some.injEq] at hx
          subst hx
          simp [flatS, flatE_tensor]
        | some init =>
          simp only [M.run_bind, M.run_modifyS] at h
          cases hd : dispatchExpr init { s3 with need_flatten := false } with
          | error err => rw [hd] at h; simp at h
          | ok pd =>
            obtain ⟨i', s4⟩ := pd
            simp only [hd, M.run_pure, Except.ok.injEq, Prod.mk.injEq] at h
            obtain ⟨hr, hs'⟩ := h
            subst hr
            subst hs'
            obtain ⟨hI4, hfe4, hfl4, _⟩ :=
              dispatchExpr_inv init _ _ _ ((Inv_set_flag s3 false).mpr hI3) hd
            refine ⟨hI4, fun _ => hfl4, ?_⟩
            intro x hx
            simp only [Option.some.injEq] at hx
            subst hx
            simp [flatS, flatE_tensor, hfe4]
    | constant c d => simp [throwM] at h
    | indexing a b => simp [throwM] at h
    | unop a => simp [throwM] at h
    | binop a b => simp [throwM] at h

theorem visit_assign_inv (lhs value : SrcExpr) (s s' : PassState)
    (r : Option NStmt) (hInv : Inv s)
    (h : visit_assign lhs value s = .ok (r, s')) :
    Inv s' ∧ s'.need_flatten = true ∧ ∀ x, r = some x → flatS x = true := by
  cases lhs with
  | var n dt g =>
    simp only [visit_assign, M.run_bind] at h
    cases hrhs : dispatchExpr value s with
    | error err => rw [hrhs] at h; simp at h
    | ok prhs =>
      obtain ⟨rhs, s1⟩ := prhs
      simp only [hrhs] at h
      obtain ⟨hI1, hfe1, hfl1, _⟩ := dispatchExpr_inv value s s1 rhs hInv hrhs
      cases hupd : get_local_var_for_update (.var n dt g) s1 with
      | error err => rw [hupd] at h; simp at h
      | ok pupd =>
        obtain ⟨ref, s2⟩ := pupd
        simp only [hupd] at h
        obtain ⟨hI2, hfl2, _, _, _, _⟩ :=
          get_local_var_for_update_inv _ s1 s2 ref hI1 hupd
        cases hrd : readRef ref s2 with
        | error err => rw [hrd] at h; simp at h
        | ok prd =>
          obtain ⟨st, s2b⟩ := prd
          simp only [hrd, M.run_getS] at h
          obtain ⟨hs2b, sc, hscmem, p, hpmem, hpst⟩ := readRef_ok ref s2 st s2b hrd
          rw [hs2b] at h
          by_cases hgc : (match st.current_value with
            | some cv => isGlobalVal s2 cv
            | none => false) = true
          · simp only [hgc, Bool.not_true, Bool.false_eq_true, if_false] at h
            cases hcv : st.current_value with
            | none => rw [hcv] at hgc; simp at hgc
            | some cv =>
              simp only [hcv, M.run_pure, Except.ok.injEq, Prod.mk.injEq] at h
              obtain ⟨hr, hs'⟩ := h
              subst hr
              subst hs'
              refine ⟨hI2, by rw [hfl2]; exact hfl1, ?_⟩
              intro x hx
              simp only [Option.some.injEq] at hx
              subst hx
              have hstok := statusOK_of_Inv s2 hI2 sc hscmem p hpmem
              rw [hpst] at hstok
              simp only [statusOK, hcv] at hstok
              simp [flatS, flatE_of_isLeaf cv hstok, hfe1]
          · simp only [hgc, Bool.not_false, if_true, Bool.false_eq_true,
              M.run_bind] at h
            cases rhs with
            | var id =>
              cases hw : writeRef ref
                  (fun x => { x with current_value := some (NExpr.var id) }) s2 with
              | error err => rw [hw] at h; simp at h
              | ok pw =>
                obtain ⟨u, s3⟩ := pw
                simp only [hw, M.run_bind] at h
                obtain ⟨hI3, hfl3, _, _, _, _⟩ := writeRef_inv ref _ s2 s3
                  (fun x _ => by simp [statusOK, isLeaf]) hI2 hw
                cases hrn : rename_temp_var_with_version (.var id)
                    (keyName (.var n dt g)) s3 with
                | error err => rw [hrn] at h; simp at h
                | ok prn =>
                  obtain ⟨u2, s4⟩ := prn
                  simp only [hrn, M.run_pure, Except.ok.injEq,
                    Prod.mk.injEq] at h
                  obtain ⟨hr, hs'⟩ := h
                  subst hr
                  subst hs'
                  obtain ⟨hI4, hfl4, _, _, _, _⟩ := rename_inv _ _ s3 s4 hI3 hrn
                  refine ⟨hI4, by rw [hfl4, hfl3, hfl2]; exact hfl1, ?_⟩
                  intro x hx
                  cases hx
            | constant c d =>
              cases hw : writeRef ref
                  (fun x => { x with current_value := some (NExpr.constant c d) }) s2 with
              | error err => rw [hw] at h; simp at h
              | ok pw =>
                obtain ⟨u, s3⟩ := pw
                simp only [hw, M.run_pure, Except.ok.injEq, Prod.mk.injEq] at h
                obtain ⟨hr, hs'⟩ := h
                subst hr
                subst hs'
                obtain ⟨hI3, hfl3, _, _, _, _⟩ := writeRef_inv ref _ s2 s3
                  (fun x _ => by simp [statusOK, isLeaf]) hI2 hw
                refine ⟨hI3, by rw [hfl3, hfl2]; exact hfl1, ?_⟩
                intro x hx
                cases hx
            | tensor nm =>
              cases hw : writeRef ref
                  (fun x => { x with current_value := some (NExpr.tensor nm) }) s2 with
              | error err => rw [hw] at h; simp at h
              | ok pw => obtain ⟨u, s3⟩ := pw; simp [hw, throwM] at h
            | indexing a b =>
              cases hw : writeRef ref
                  (fun x => { x with current_value := some (NExpr.indexing a b) }) s2 with
              | error err => rw [hw] at h; simp at h
              | ok pw => obtain ⟨u, s3⟩ := pw; simp [hw, throwM] at h
            | unop a =>
              cases hw : writeRef ref
                  (fun x => { x with current_value := some (NExpr.unop a) }) s2 with
              | error err => rw [hw] at h; simp at h
              | ok pw => obtain ⟨u, s3⟩ := pw; simp [hw, throwM] at h
            | binop a b =>
              cases hw : writeRef ref
                  (fun x => { x with current_value := some (NExpr.binop a b) }) s2 with
              | error err => rw [hw] at h; simp at h
              | ok pw => obtain ⟨u, s3⟩ := pw; simp [hw, throwM] at h
            | phiRef pid =>
              cases hw : writeRef ref
                  (fun x => { x with current_value := some (NExpr.phiRef pid) }) s2 with
              | error err => rw [hw] at h; simp at h
              | ok pw => obtain ⟨u, s3⟩ := pw; simp [hw, throwM] at h
  | indexing a b =>
    simp only [visit_assign, M.run_bind, M.run_modifyS] at h
    cases hl : dispatchExpr (.indexing a b) { s with need_flatten := false } with
    | error err => rw [hl] at h; simp at h
    | ok pl =>
      obtain ⟨l', s1⟩ := pl
      simp only [hl] at h
      obtain ⟨hI1, hfe1, hfl1, _⟩ :=
        dispatchExpr_inv _ _ _ _ ((Inv_set_flag s false).mpr hInv) hl
      cases hr2 : dispatchExpr value s1 with
      | error err => rw [hr2] at h; simp at h
      | ok pr =>
        obtain ⟨r', s2⟩ := pr
        simp only [hr2, M.run_pure, Except.ok.injEq, Prod.mk.injEq] at h
        obtain ⟨hr3, hs'⟩ := h
        subst hr3
        subst hs'
        obtain ⟨hI2, hfe2, hfl2, _⟩ := dispatchExpr_inv value s1 s2 r' hI1 hr2
        refine ⟨hI2, hfl2, ?_⟩
        intro x hx
        simp only [Option.some.injEq] at hx
        subst hx
        simp [flatS, hfe1, hfe2]
  | tensor nm => simp [visit_assign, throwM] at h
  | constant c d => simp [visit_assign, throwM] at h
  | unop a => simp [visit_assign, throwM] at h
  | binop a b => simp [visit_assign, throwM] at h

theorem loopPhiPatchSpec_all_leaf (va : List VarInfo) (phis : List NExpr)
    (cv : NExpr) (hcv : isLeaf cv = true) :
    ∀ ar, (∀ ops ∈ ar, ops.all isLeaf = true) →
      ∀ ops ∈ loopPhiPatchSpec va ar phis cv, ops.all isLeaf = true := by
  induction phis with
  | nil => intro ar har ops hops; exact har ops hops
  | cons phi rest ih =>
    intro ar har ops hops
    simp only [loopPhiPatchSpec, List.foldl_cons] at hops
    by_cases heq : phi = cv
    · exact ih ar har ops (by simpa [loopPhiPatchSpec, heq] using hops)
    · cases ht : phiTargetOf va phi with
      | none => exact ih ar har ops (by simpa [loopPhiPatchSpec, heq, ht] using hops)
      | some pid =>
        cases ha : ar[pid]? with
        | none => exact ih ar har ops (by simpa [loopPhiPatchSpec, heq, ht, ha] using hops)
        | some ops0 =>
          refine ih (ar.set pid (ops0 ++ [cv])) ?_ ops
            (by simpa [loopPhiPatchSpec, heq, ht, ha] using hops)
          intro x hx
          cases List.mem_or_eq_of_mem_set hx with
          | inl hin => exact har x hin
          | inr hxeq =>
            subst hxeq
            simp only [List.all_append, Bool.and_eq_true]
            exact ⟨har ops0 (mem_of_getElem_opt _ _ _ ha), by simp [hcv]⟩

theorem collInsert_accOK (k : SrcExpr) (v : NExpr) (hv : isLeaf v = true) :
    ∀ acc, accOK acc = true → accOK (collInsert acc k v) = true := by
  intro acc
  induction acc with
  | nil => intro _; simp [collInsert, accOK, hv]
  | cons p rest ih =>
    intro hacc
    simp only [accOK, List.all_cons, Bool.and_eq_true] at hacc
    by_cases h1 : varCmpLt k p.1 = true
    · simp [collInsert, h1, accOK, hv, hacc.1, hacc.2]
    · by_cases h2 : varCmpLt p.1 k = true
      · have := ih hacc.2
        simp only [accOK] at this
        simp [collInsert, h1, h2, accOK, hacc.1, this]
      · simp [collInsert, h1, h2, accOK, hacc.1, hacc.2, hv]

theorem for_loop_merge_entry_inv (k : SrcExpr) (st : SsaVarStatus)
    (s s' : PassState) (hInv : Inv s) (hstok : statusOK st = true)
    (h : for_loop_merge_entry k st s = .ok ((), s')) :
    Inv s' ∧ s'.need_flatten = s.need_flatten := by
  simp only [for_loop_merge_entry, get_local_var_nothrow, M.run_bind,
    M.run_pure] at h
  cases hft : findFromTop s.scopes k with
  | none =>
    simp only [hft, M.run_pure, Except.ok.injEq, Prod.mk.injEq, true_and] at h
    rw [← h]
    exact ⟨hInv, rfl⟩
  | some pos =>
    simp only [hft] at h
    cases hcv : st.current_value with
    | none =>
      cases hphis : st.for_loop_phi with
      | nil =>
        simp only [hphis, hcv, patch_loop_phis, M.run_bind, M.run_pure] at h
        cases hrd : readRef ⟨s.scopes.length - 1 - pos, k⟩ s with
        | error err => rw [hrd] at h; simp at h
        | ok prd =>
          obtain ⟨pst, sx⟩ := prd
          simp only [hrd] at h
          cases hpcv : pst.current_value with
          | none => simp only [hpcv, throwM] at h; simp at h
          | some pcv => simp only [hpcv, throwM] at h; simp at h
      | cons phi restp =>
        simp only [hphis, hcv, patch_loop_phis, M.run_bind, M.run_ite,
          throwM] at h
        simp at h
    | some cv =>
      have hcvleaf : isLeaf cv = true := by
        simpa [statusOK, hcv] using hstok
      simp only [hcv, M.run_bind] at h
      cases hpatch : patch_loop_phis st.for_loop_phi (some cv) s with
      | error err => rw [hpatch] at h; simp at h
      | ok ppatch =>
        obtain ⟨u, s2⟩ := ppatch
        simp only [hpatch] at h
        have hs2 := patch_loop_phis_ok st.for_loop_phi cv s s2 hpatch
        have hI2 : Inv s2 := by
          subst hs2
          obtain ⟨h1, h2, h3, h4⟩ := hInv
          exact ⟨h1, loopPhiPatchSpec_all_leaf s.varArena st.for_loop_phi cv
            hcvleaf s.phiArena h2, h3, h4⟩
        have hfl2 : s2.need_flatten = s.need_flatten := by rw [hs2]
        cases hrd : readRef ⟨s.scopes.length - 1 - pos, k⟩ s2 with
        | error err => rw [hrd] at h; simp at h
        | ok prd =>
          obtain ⟨pst, s2b⟩ := prd
          simp only [hrd] at h
          obtain ⟨hs2b, sc, hscmem, p, hpmem, hpst⟩ :=
            readRef_ok _ s2 pst s2b hrd
          rw [hs2b] at h
          cases hpcv : pst.current_value with
          | none => simp only [hpcv, throwM] at h; simp at h
          | some pcv =>
            have hpcvleaf : isLeaf pcv = true := by
              have := statusOK_of_Inv s2 hI2 sc hscmem p hpmem
              rw [hpst] at this
              simpa [statusOK, hpcv] using this
            simp only [hpcv, M.run_bind] at h
            cases hmp : make_phi [pcv, cv] s2 with
            | error err => rw [hmp] at h; simp at h
            | ok pmp =>
              obtain ⟨phiN, s3⟩ := pmp
              simp only [hmp] at h
              obtain ⟨hI3, hfl3, _, hfp3⟩ := make_phi_inv _ s2 s3 phiN hI2
                (by simp [hpcvleaf, hcvleaf]) hmp
              cases had : add_def_after_current_stmt phiN s3 with
              | error err => rw [had] at h; simp at h
              | ok pad =>
                obtain ⟨curv, s4⟩ := pad
                simp only [had] at h
                obtain ⟨hI4, hfl4, _, hvt4⟩ :=
                  add_def_after_inv phiN s3 s4 curv hI3 hfp3 had
                cases hupd : get_local_var_for_update k s4 with
                | error err => rw [hupd] at h; simp at h
                | ok pupd =>
                  obtain ⟨ref2, s5⟩ := pupd
                  simp only [hupd] at h
                  obtain ⟨hI5, hfl5, _, _, _, _⟩ :=
                    get_local_var_for_update_inv k s4 s5 ref2 hI4 hupd
                  cases hw : writeRef ref2
                      (fun x => { x with current_value := some curv }) s5 with
                  | error err => rw [hw] at h; simp at h
                  | ok pw =>
                    obtain ⟨u2, s6⟩ := pw
                    simp only [hw] at h
                    obtain ⟨hI6, hfl6, _, _, _, _⟩ := writeRef_inv ref2 _ s5 s6
                      (fun x _ => by
                        simp [statusOK, isLeaf_of_isVT curv hvt4]) hI5 hw
                    cases hrn : rename_temp_var_with_version curv (keyName k) s6 with
                    | error err => rw [hrn] at h; simp at h
                    | ok prn =>
                      obtain ⟨u3, s7⟩ := prn
                      simp only [hrn, Except.ok.injEq, Prod.mk.injEq,
                        true_and] at h
                      rw [← h]
                      obtain ⟨hI7, hfl7, _, _, _, _⟩ := rename_inv curv _ s6 s7 hI6 hrn
                      refine ⟨hI7, ?_⟩
                      rw [hfl7, hfl6, hfl5, hfl4, hfl3, hfl2]

theorem for_loop_merge_inv :
    ∀ (entries : List (SrcExpr × SsaVarStatus)) (s s' : PassState), Inv s →
      entries.all (fun p => statusOK p.2) = true →
      for_loop_merge entries s = .ok ((), s') →
      Inv s' ∧ s'.need_flatten = s.need_flatten := by
  intro entries
  induction entries with
  | nil =>
    intro s s' hInv _ h
    simp only [for_loop_merge, M.run_pure, Except.ok.injEq, Prod.mk.injEq,
      true_and] at h
    rw [← h]
    exact ⟨hInv, rfl⟩
  | cons e rest ih =>
    intro s s' hInv hall h
    simp only [List.all_cons, Bool.and_eq_true] at hall
    simp only [for_loop_merge, M.run_bind] at h
    cases he : for_loop_merge_entry e.1 e.2 s with
    | error err => rw [he] at h; simp at h
    | ok pe =>
      obtain ⟨u, s2⟩ := pe
      simp only [he] at h
      obtain ⟨hI2, hfl2⟩ := for_loop_merge_entry_inv e.1 e.2 s s2 hInv hall.1 he
      obtain ⟨hI3, hfl3⟩ := ih s2 s' hI2 hall.2 h
      exact ⟨hI3, by rw [hfl3, hfl2]⟩

theorem collect_arm_inv :
    ∀ (entries : List (SrcExpr × SsaVarStatus))
      (acc : List (SrcExpr × List NExpr)) (s s' : PassState)
      (acc' : List (SrcExpr × List NExpr)), Inv s →
      entries.all (fun p => statusOK p.2) = true → accOK acc = true →
      collect_arm entries acc s = .ok (acc', s') →
      Inv s' ∧ accOK acc' = true ∧ s'.need_flatten = s.need_flatten := by
  intro entries
  induction entries with
  | nil =>
    intro acc s s' acc' hInv _ hacc h
    simp only [collect_arm, M.run_pure, Except.ok.injEq, Prod.mk.injEq] at h
    obtain ⟨h1, h2⟩ := h
    rw [← h1, ← h2]
    exact ⟨hInv, hacc, rfl⟩
  | cons e rest ih =>
    obtain ⟨k, st⟩ := e
    intro acc s s' acc' hInv hall hacc h
    simp only [List.all_cons, Bool.and_eq_true] at hall
    cases hcv : st.current_value with
    | none =>
      simp only [collect_arm, hcv, throwM] at h
      simp at h
    | some cv =>
      have hcvleaf : isLeaf cv = true := by
        simpa [statusOK, hcv] using hall.1
      simp only [collect_arm, hcv, M.run_bind] at h
      cases hupd : get_local_var_for_update k s with
      | error err => rw [hupd] at h; simp at h
      | ok pupd =>
        obtain ⟨ref, s2⟩ := pupd
        simp only [hupd] at h
        obtain ⟨hI2, hfl2, _, _, _, _⟩ :=
          get_local_var_for_update_inv k s s2 ref hInv hupd
        cases hw : writeRef ref
            (fun x => { x with for_loop_phi := x.for_loop_phi ++ st.for_loop_phi })
            s2 with
        | error err => rw [hw] at h; simp at h
        | ok pw =>
          obtain ⟨u, s3⟩ := pw
          simp only [hw] at h
          obtain ⟨hI3, hfl3, _, _, _, _⟩ := writeRef_inv ref _ s2 s3
            (fun x hx => by simpa [statusOK] using hx) hI2 hw
          obtain ⟨hI4, hacc4, hfl4⟩ := ih (collInsert acc k cv) s3 s' acc'
            hI3 hall.2 (collInsert_accOK k cv hcvleaf acc hacc) h
          exact ⟨hI4, hacc4, by rw [hfl4, hfl3, hfl2]⟩

theorem emit_merged_inv :
    ∀ (acc : List (SrcExpr × List NExpr)) (s s' : PassState), Inv s →
      accOK acc = true → emit_merged acc s = .ok ((), s') →
      Inv s' ∧ s'.need_flatten = s.need_flatten := by
  intro acc
  induction acc with
  | nil =>
    intro s s' hInv _ h
    simp only [emit_merged, M.run_pure, Except.ok.injEq, Prod.mk.injEq,
      true_and] at h
    rw [← h]
    exact ⟨hInv, rfl⟩
  | cons e rest ih =>
    obtain ⟨k, ops⟩ := e
    intro s s' hInv hacc h
    simp only [accOK, List.all_cons, Bool.and_eq_true] at hacc
    simp only [emit_merged, M.run_bind] at h
    cases hmp : make_phi ops s with
    | error err => rw [hmp] at h; simp at h
    | ok pmp =>
      obtain ⟨phiN, s2⟩ := pmp
      simp only [hmp] at h
      obtain ⟨hI2, hfl2, _, hfp2⟩ := make_phi_inv ops s s2 phiN hInv hacc.1 hmp
      cases had : add_def_after_current_stmt phiN s2 with
      | error err => rw [had] at h; simp at h
      | ok pad =>
        obtain ⟨newv, s3⟩ := pad
        simp only [had] at h
        obtain ⟨hI3, hfl3, _, hvt3⟩ :=
          add_def_after_inv phiN s2 s3 newv hI2 hfp2 had
        cases hupd : get_local_var_for_update k s3 with
        | error err => rw [hupd] at h; simp at h
        | ok pupd =>
          obtain ⟨ref, s4⟩ := pupd
          simp only [hupd] at h
          obtain ⟨hI4, hfl4, _, _, _, _⟩ :=
            get_local_var_for_update_inv k s3 s4 ref hI3 hupd
          cases hw : writeRef ref
              (fun x => { x with current_value := some newv }) s4 with
          | error err => rw [hw] at h; simp at h
          | ok pw =>
            obtain ⟨u, s5⟩ := pw
            simp only [hw] at h
            obtain ⟨hI5, hfl5, _, _, _, _⟩ := writeRef_inv ref _ s4 s5
              (fun x _ => by simp [statusOK, isLeaf_of_isVT newv hvt3])
              hI4 hw
            cases hrn : rename_temp_var_with_version newv (keyName k) s5 with
            | error err => rw [hrn] at h; simp at h
            | ok prn =>
              obtain ⟨u2, s6⟩ := prn
              simp only [hrn] at h
              obtain ⟨hI6, hfl6, _, _, _, _⟩ := rename_inv newv _ s5 s6 hI5 hrn
              obtain ⟨hI7, hfl7⟩ := ih s6 s' hI6 hacc.2 h
              exact ⟨hI7, by rw [hfl7, hfl6, hfl5, hfl4, hfl3, hfl2]⟩

theorem if_merge_two_arm_inv (thenVars elseVars : List (SrcExpr × SsaVarStatus))
    (s s' : PassState) (hInv : Inv s)
    (hthen : thenVars.all (fun p => statusOK p.2) = true)
    (helse : elseVars.all (fun p => statusOK p.2) = true)
    (h : if_merge_two_arm thenVars elseVars s = .ok ((), s')) :
    Inv s' ∧ s'.need_flatten = s.need_flatten := by
  simp only [if_merge_two_arm, M.run_bind] at h
  cases h1 : collect_arm thenVars [] s with
  | error err => rw [h1] at h; simp at h
  | ok p1 =>
    obtain ⟨acc, s2⟩ := p1
    simp only [h1] at h
    obtain ⟨hI2, hacc2, hfl2⟩ := collect_arm_inv thenVars [] s s2 acc hInv
      hthen (by simp [accOK]) h1
    cases h2 : collect_arm elseVars acc s2 with
    | error err => rw [h2] at h; simp at h
    | ok p2 =>
      obtain ⟨acc', s3⟩ := p2
      simp only [h2] at h
      obtain ⟨hI3, hacc3, hfl3⟩ := collect_arm_inv elseVars acc s2 s3 acc'
        hI2 helse hacc2 h2
      obtain ⟨hI4, hfl4⟩ := emit_merged_inv acc' s3 s' hI3 hacc3 h
      exact ⟨hI4, by rw [hfl4, hfl3, hfl2]⟩

theorem if_merge_then_only_inv :
    ∀ (entries : List (SrcExpr × SsaVarStatus)) (s s' : PassState), Inv s →
      entries.all (fun p => statusOK p.2) = true →
      if_merge_then_only entries s = .ok ((), s') →
      Inv s' ∧ s'.need_flatten = s.need_flatten := by
  intro entries
  induction entries with
  | nil =>
    intro s s' hInv _ h
    simp only [if_merge_then_only, M.run_pure, Except.ok.injEq, Prod.mk.injEq,
      true_and] at h
    rw [← h]
    exact ⟨hInv, rfl⟩
  | cons e rest ih =>
    obtain ⟨k, st⟩ := e
    intro s s' hInv hall h
    simp only [List.all_cons, Bool.and_eq_true] at hall
    simp only [if_merge_then_only, get_local_var_nothrow, M.run_bind] at h
    cases hft : findFromTop s.scopes k with
    | none =>
      simp only [hft, M.run_bind, M.run_pure] at h
      exact ih s s' hInv hall.2 h
    | some pos =>
      simp only [hft, M.run_bind] at h
      cases hupd : get_local_var_for_update k s with
      | error err => rw [hupd] at h; simp at h
      | ok pupd =>
        obtain ⟨statusRef, s2⟩ := pupd
        simp only [hupd] at h
        obtain ⟨hI2, hfl2, _, _, _, _⟩ :=
          get_local_var_for_update_inv k s s2 statusRef hInv hupd
        cases hw : writeRef statusRef
            (fun x => { x with for_loop_phi := x.for_loop_phi ++ st.for_loop_phi })
            s2 with
        | error err => rw [hw] at h; simp at h
        | ok pw =>
          obtain ⟨u, s3⟩ := pw
          simp only [hw] at h
          obtain ⟨hI3, hfl3, _, _, _, _⟩ := writeRef_inv statusRef _ s2 s3
            (fun x hx => by simpa [statusOK] using hx) hI2 hw
          cases hrd : readRef ⟨s.scopes.length - 1 - pos, k⟩ s3 with
          | error err => rw [hrd] at h; simp at h
          | ok prd =>
            obtain ⟨parentSt, s3b⟩ := prd
            simp only [hrd] at h
            obtain ⟨hs3b, sc, hscmem, p, hpmem, hpst⟩ :=
              readRef_ok _ s3 parentSt s3b hrd
            rw [hs3b] at h
            cases hpcv : parentSt.current_value with
            | none =>
              cases hcv : st.current_value with
              | none => simp only [hpcv, hcv, throwM] at h; simp at h
              | some cv => simp only [hpcv, hcv, throwM] at h; simp at h
            | some pcv =>
              cases hcv : st.current_value with
              | none => simp only [hpcv, hcv, throwM] at h; simp at h
              | some cv =>
                have hpcvleaf : isLeaf pcv = true := by
                  have := statusOK_of_Inv s3 hI3 sc hscmem p hpmem
                  rw [hpst] at this
                  simpa [statusOK, hpcv] using this
                have hcvleaf : isLeaf cv = true := by
                  simpa [statusOK, hcv] using hall.1
                simp only [hpcv, hcv, M.run_bind] at h
                cases hmp : make_phi [pcv, cv] s3 with
                | error err => rw [hmp] at h; simp at h
                | ok pmp =>
                  obtain ⟨phiN, s4⟩ := pmp
                  simp only [hmp] at h
                  obtain ⟨hI4, hfl4, _, hfp4⟩ := make_phi_inv _ s3 s4 phiN hI3
                    (by simp [hpcvleaf, hcvleaf]) hmp
                  cases had : add_def_after_current_stmt phiN s4 with
                  | error err => rw [had] at h; simp at h
                  | ok pad =>
                    obtain ⟨newv, s5⟩ := pad
                    simp only [had] at h
                    obtain ⟨hI5, hfl5, _, hvt5⟩ :=
                      add_def_after_inv phiN s4 s5 newv hI4 hfp4 had
                    cases hw2 : writeRef statusRef
                        (fun x => { x with current_value := some newv }) s5 with
                    | error err => rw [hw2] at h; simp at h
                    | ok pw2 =>
                      obtain ⟨u2, s6⟩ := pw2
                      simp only [hw2] at h
                      obtain ⟨hI6, hfl6, _, _, _, _⟩ := writeRef_inv statusRef _
                        s5 s6
                        (fun x _ => by
                          simp [statusOK, isLeaf_of_isVT newv hvt5])
                        hI5 hw2
                      cases hrn : rename_temp_var_with_version newv
                          (keyName k) s6 with
                      | error err => rw [hrn] at h; simp at h
                      | ok prn =>
                        obtain ⟨u3, s7⟩ := prn
                        simp only [hrn] at h
                        obtain ⟨hI7, hfl7, _, _, _, _⟩ :=
                          rename_inv newv _ s6 s7 hI6 hrn
                        obtain ⟨hI8, hfl8⟩ := ih s7 s' hI7 hall.2 h
                        exact ⟨hI8, by
                          rw [hfl8, hfl7, hfl6, hfl5, hfl4, hfl3, hfl2]⟩

theorem flatB_toNBlock : ∀ l : List NStmt, (∀ t ∈ l, flatS t = true) →
    flatB (toNBlock l) = true := by
  intro l
  induction l with
  | nil => intro _; rfl
  | cons t r ih =>
    intro hall
    simp only [toNBlock, flatB, Bool.and_eq_true]
    exact ⟨hall t (by simp), ih (fun x hx => hall x (by simp [hx]))⟩

theorem push_scope_inv (k : ScopeKind) (s s' : PassState) (hInv : Inv s)
    (h : push_scope k s = .ok ((), s')) :
    Inv s' ∧ s'.need_flatten = s.need_flatten := by
  simp only [push_scope, M.run_modifyS, Except.ok.injEq, Prod.mk.injEq,
    true_and] at h
  rw [← h]
  refine ⟨⟨?_, hInv.2.1, hInv.2.2.1, hInv.2.2.2⟩, rfl⟩
  intro sc hsc
  rcases List.mem_cons.1 hsc with hh | hh
  · rw [hh]; rfl
  · exact hInv.1 sc hh

theorem pop_scope_inv (s s' : PassState) (sc : SsaScope) (hInv : Inv s)
    (h : pop_scope s = .ok (sc, s')) :
    Inv s' ∧ s'.need_flatten = s.need_flatten ∧
      sc.vars.all (fun p => statusOK p.2) = true := by
  cases hs : s.scopes with
  | nil => simp [pop_scope, hs] at h
  | cons a rest =>
    simp only [pop_scope, hs, Except.ok.injEq, Prod.mk.injEq] at h
    obtain ⟨h1, h2⟩ := h
    rw [← h2]
    refine ⟨⟨?_, hInv.2.1, hInv.2.2.1, hInv.2.2.2⟩, rfl, ?_⟩
    · intro x hx
      exact hInv.1 x (by rw [hs]; exact List.mem_cons_of_mem a hx)
    · have := hInv.1 a (by rw [hs]; exact List.mem_cons_self a rest)
      rw [← h1]
      simpa [scopeOK] using this

theorem allocVar_inv (name : String) (dtype : DType) (g p : Bool)
    (dv : Option NExpr) (s s2 : PassState) (id : Nat) (hInv : Inv s)
    (h : allocVar name dtype g p dv s = .ok (id, s2)) :
    Inv s2 ∧ s2.need_flatten = s.need_flatten := by
  simp only [allocVar, Except.ok.injEq, Prod.mk.injEq] at h
  obtain ⟨-, h2⟩ := h
  rw [← h2]
  exact ⟨⟨hInv.1, hInv.2.1, hInv.2.2.1, hInv.2.2.2⟩, rfl⟩

mutual
theorem dispatchStmt_inv :
    ∀ (t : SrcStmt) (s s' : PassState) (r : Option NStmt), Inv s →
      s.need_flatten = true → dispatchStmt t s = .ok (r, s') →
      Inv s' ∧ s'.need_flatten = true ∧ ∀ x, r = some x → flatS x = true
  | .define v i, s, s', r, hInv, hfl, h => by
    simp only [dispatchStmt] at h
    obtain ⟨hI, hcond, hflat⟩ := visit_define_inv v i s s' r hInv h
    exact ⟨hI, hcond hfl, hflat⟩
  | .assign l v, s, s', r, hInv, hfl, h => by
    simp only [dispatchStmt] at h
    obtain ⟨hI, hfl', hflat⟩ := visit_assign_inv l v s s' r hInv h
    exact ⟨hI, hfl', hflat⟩
  | .eval e, s, s', r, hInv, hfl, h => by
    simp only [dispatchStmt, M.run_bind] at h
    cases he : dispatchExpr e s with
    | error err => rw [he] at h; simp at h
    | ok pe =>
      obtain ⟨e', s2⟩ := pe
      simp only [he, M.run_pure, Except.ok.injEq, Prod.mk.injEq] at h
      obtain ⟨hr, hs'⟩ := h
      obtain ⟨hI2, hfe, hfl2, _⟩ := dispatchExpr_inv e s s2 e' hInv he
      rw [← hr, ← hs']
      refine ⟨hI2, hfl2, ?_⟩
      intro x hx
      cases hx
      simpa [flatS] using hfe
  | .forLoop itv b e st body, s, s', r, hInv, hfl, h => by
    simp only [dispatchStmt, M.run_bind] at h
    cases hb : dispatchExpr b s with
    | error err => rw [hb] at h; simp at h
    | ok pb =>
      obtain ⟨b', s1⟩ := pb
      simp only [hb] at h
      obtain ⟨hI1, hfb, hfl1, _⟩ := dispatchExpr_inv b s s1 b' hInv hb
      cases he : dispatchExpr e s1 with
      | error err => rw [he] at h; simp at h
      | ok pe =>
        obtain ⟨e', s2⟩ := pe
        simp only [he] at h
        obtain ⟨hI2, hfe, hfl2, _⟩ := dispatchExpr_inv e s1 s2 e' hI1 he
        cases hst : dispatchExpr st s2 with
        | error err => rw [hst] at h; simp at h
        | ok pst =>
          obtain ⟨st', s3⟩ := pst
          simp only [hst] at h
          obtain ⟨hI3, hfst, hfl3, _⟩ := dispatchExpr_inv st s2 s3 st' hI2 hst
          cases hp : push_scope .for_loop s3 with
          | error err => rw [hp] at h; simp at h
          | ok pp =>
            obtain ⟨u0, s4⟩ := pp
            simp only [hp] at h
            obtain ⟨hI4, hfl4⟩ := push_scope_inv .for_loop s3 s4 hI3 hp
            cases itv with
            | var name dt gflag =>
              simp only [M.run_bind] at h
              cases ha : allocVar name dt false false none s4 with
              | error err => rw [ha] at h; simp at h
              | ok pa =>
                obtain ⟨id, s5⟩ := pa
                simp only [ha] at h
                obtain ⟨hI5, hfl5⟩ :=
                  allocVar_inv name dt false false none s4 s5 id hI4 ha
                cases hins : insert_local_var (.var name dt gflag)
                    (some (NExpr.var id)) s5 with
                | error err => rw [hins] at h; simp at h
                | ok pins =>
                  obtain ⟨ref, s6⟩ := pins
                  simp only [hins] at h
                  obtain ⟨hI6, hfl6, _, _, _, _⟩ :=
                    insert_local_var_inv (.var name dt gflag)
                      (some (NExpr.var id)) s5 s6 ref hI5 (by rfl) hins
                  cases hbody : dispatchBlock body s6 with
                  | error err => rw [hbody] at h; simp at h
                  | ok pbody =>
                    obtain ⟨body', s7⟩ := pbody
                    simp only [hbody] at h
                    obtain ⟨hI7, hfl7, hbf⟩ := dispatchBlock_inv body s6 s7
                      body' hI6
                      (by rw [hfl6, hfl5, hfl4, hfl3]) hbody
                    cases hpop : pop_scope s7 with
                    | error err => rw [hpop] at h; simp at h
                    | ok ppop =>
                      obtain ⟨scope, s8⟩ := ppop
                      simp only [hpop] at h
                      obtain ⟨hI8, hfl8, hscok⟩ :=
                        pop_scope_inv s7 s8 scope hI7 hpop
                      cases hm : for_loop_merge scope.vars s8 with
                      | error err => rw [hm] at h; simp at h
                      | ok pm =>
                        obtain ⟨u1, s9⟩ := pm
                        simp only [hm, M.run_pure, Except.ok.injEq,
                          Prod.mk.injEq] at h
                        obtain ⟨hr, hs'⟩ := h
                        obtain ⟨hI9, hfl9⟩ :=
                          for_loop_merge_inv scope.vars s8 s9 hI8 hscok hm
                        rw [← hr, ← hs']
                        refine ⟨hI9, by rw [hfl9, hfl8]; exact hfl7, ?_⟩
                        intro x hx
                        cases hx
                        simp only [flatS, Bool.and_eq_true]
                        exact ⟨⟨⟨⟨rfl, hfb⟩, hfe⟩, hfst⟩, flatB_toNBlock body' hbf⟩
            | tensor n => simp only [M.run_throwM] at h; simp [throwM] at h
            | constant cv cdt => simp only [M.run_throwM] at h; simp [throwM] at h
            | indexing a bb => simp only [M.run_throwM] at h; simp [throwM] at h
            | unop a => simp only [M.run_throwM] at h; simp [throwM] at h
            | binop a bb => simp only [M.run_throwM] at h; simp [throwM] at h
  | .ifElse cond t (some eb), s, s', r, hInv, hfl, h => by
    simp only [dispatchStmt, M.run_bind] at h
    cases hc : dispatchExpr cond s with
    | error err => rw [hc] at h; simp at h
    | ok pc =>
      obtain ⟨cond', s1⟩ := pc
      simp only [hc] at h
      obtain ⟨hI1, hfc, hfl1, _⟩ := dispatchExpr_inv cond s s1 cond' hInv hc
      cases hp : push_scope .if_then s1 with
      | error err => rw [hp] at h; simp at h
      | ok pp =>
        obtain ⟨u0, s2⟩ := pp
        simp only [hp] at h
        obtain ⟨hI2, hfl2⟩ := push_scope_inv .if_then s1 s2 hI1 hp
        cases ht : dispatchBlock t s2 with
        | error err => rw [ht] at h; simp at h
        | ok pt =>
          obtain ⟨t', s3⟩ := pt
          simp only [ht] at h
          obtain ⟨hI3, hfl3, htf⟩ := dispatchBlock_inv t s2 s3 t' hI2
            (by rw [hfl2]; exact hfl1) ht
          cases hpop : pop_scope s3 with
          | error err => rw [hpop] at h; simp at h
          | ok ppop =>
            obtain ⟨tsc, s4⟩ := ppop
            simp only [hpop] at h
            obtain ⟨hI4, hfl4, htok⟩ := pop_scope_inv s3 s4 tsc hI3 hpop
            cases hp2 : push_scope .if_else s4 with
            | error err => rw [hp2] at h; simp at h
            | ok pp2 =>
              obtain ⟨u1, s5⟩ := pp2
              simp only [hp2] at h
              obtain ⟨hI5, hfl5⟩ := push_scope_inv .if_else s4 s5 hI4 hp2
              cases heb : dispatchBlock eb s5 with
              | error err => rw [heb] at h; simp at h
              | ok peb =>
                obtain ⟨e', s6⟩ := peb
                simp only [heb] at h
                obtain ⟨hI6, hfl6, hef⟩ := dispatchBlock_inv eb s5 s6 e' hI5
                  (by rw [hfl5, hfl4]; exact hfl3) heb
                cases hpop2 : pop_scope s6 with
                | error err => rw [hpop2] at h; simp at h
                | ok ppop2 =>
                  obtain ⟨esc, s7⟩ := ppop2
                  simp only [hpop2] at h
                  obtain ⟨hI7, hfl7, heok⟩ := pop_scope_inv s6 s7 esc hI6 hpop2
                  cases hm : if_merge_two_arm tsc.vars esc.vars s7 with
                  | error err => rw [hm] at h; simp at h
                  | ok pm =>
                    obtain ⟨u2, s8⟩ := pm
                    simp only [hm, M.run_pure, Except.ok.injEq,
                      Prod.mk.injEq] at h
                    obtain ⟨hr, hs'⟩ := h
                    obtain ⟨hI8, hfl8⟩ := if_merge_two_arm_inv tsc.vars
                      esc.vars s7 s8 hI7 htok heok hm
                    rw [← hr, ← hs']
                    refine ⟨hI8, by rw [hfl8, hfl7]; exact hfl6, ?_⟩
                    intro x hx
                    cases hx
                    simp only [flatS, Bool.and_eq_true]
                    exact ⟨⟨hfc, flatB_toNBlock t' htf⟩, flatB_toNBlock e' hef⟩
  | .ifElse cond t none, s, s', r, hInv, hfl, h => by
    simp only [dispatchStmt, M.run_bind] at h
    cases hc : dispatchExpr cond s with
    | error err => rw [hc] at h; simp at h
    | ok pc =>
      obtain ⟨cond', s1⟩ := pc
      simp only [hc] at h
      obtain ⟨hI1, hfc, hfl1, _⟩ := dispatchExpr_inv cond s s1 cond' hInv hc
      cases hp : push_scope .if_then s1 with
      | error err => rw [hp] at h; simp at h
      | ok pp =>
        obtain ⟨u0, s2⟩ := pp
        simp only [hp] at h
        obtain ⟨hI2, hfl2⟩ := push_scope_inv .if_then s1 s2 hI1 hp
        cases ht : dispatchBlock t s2 with
        | error err => rw [ht] at h; simp at h
        | ok pt =>
          obtain ⟨t', s3⟩ := pt
          simp only [ht] at h
          obtain ⟨hI3, hfl3, htf⟩ := dispatchBlock_inv t s2 s3 t' hI2
            (by rw [hfl2]; exact hfl1) ht
          cases hpop : pop_scope s3 with
          | error err => rw [hpop] at h; simp at h
          | ok ppop =>
            obtain ⟨tsc, s4⟩ := ppop
            simp only [hpop] at h
            obtain ⟨hI4, hfl4, htok⟩ := pop_scope_inv s3 s4 tsc hI3 hpop
            cases hm : if_merge_then_only tsc.vars s4 with
            | error err => rw [hm] at h; simp at h
            | ok pm =>
              obtain ⟨u2, s5⟩ := pm
              simp only [hm, M.run_pure, Except.ok.injEq, Prod.mk.injEq] at h
              obtain ⟨hr, hs'⟩ := h
              obtain ⟨hI5, hfl5⟩ :=
                if_merge_then_only_inv tsc.vars s4 s5 hI4 htok hm
              rw [← hr, ← hs']
              refine ⟨hI5, by rw [hfl5, hfl4]; exact hfl3, ?_⟩
              intro x hx
              cases hx
              simp only [flatS, Bool.and_eq_true]
              exact ⟨⟨hfc, flatB_toNBlock t' htf⟩, trivial⟩
theorem dispatchBlock_inv :
    ∀ (b : SrcBlock) (s s' : PassState) (l : List NStmt), Inv s →
      s.need_flatten = true → dispatchBlock b s = .ok (l, s') →
      Inv s' ∧ s'.need_flatten = true ∧ ∀ t ∈ l, flatS t = true
  | .nil, s, s', l, hInv, hfl, h => by
    simp only [dispatchBlock, M.run_pure, Except.ok.injEq, Prod.mk.injEq] at h
    obtain ⟨h1, h2⟩ := h
    rw [← h1, ← h2]
    exact ⟨hInv, hfl, by simp⟩
  | .cons st rest, s, s', l, hInv, hfl, h => by
    simp only [dispatchBlock, M.run_bind, M.run_getS, M.run_setS] at h
    cases hst : dispatchStmt st
        { s with pendingBefore := [], pendingAfter := [] } with
    | error err => rw [hst] at h; simp at h
    | ok pst =>
      obtain ⟨r, s2⟩ := pst
      simp only [hst, M.run_bind, M.run_getS, M.run_setS] at h
      obtain ⟨hI2, hfl2, hrf⟩ := dispatchStmt_inv st
        { s with pendingBefore := [], pendingAfter := [] } s2 r
        ⟨hInv.1, hInv.2.1, by simp, by simp⟩ hfl hst
      cases hrest : dispatchBlock rest
          { s2 with pendingBefore := s.pendingBefore,
                    pendingAfter := s.pendingAfter } with
      | error err => rw [hrest] at h; simp at h
      | ok prest =>
        obtain ⟨rest', s3⟩ := prest
        simp only [hrest, M.run_pure, Except.ok.injEq, Prod.mk.injEq] at h
        obtain ⟨h1, h2⟩ := h
        obtain ⟨hI3, hfl3, hrestf⟩ := dispatchBlock_inv rest
          { s2 with pendingBefore := s.pendingBefore,
                    pendingAfter := s.pendingAfter } s3 rest'
          ⟨hI2.1, hI2.2.1, hInv.2.2.1, hInv.2.2.2⟩ hfl2 hrest
        rw [← h1, ← h2]
        refine ⟨hI3, hfl3, ?_⟩
        intro x hx
        rcases List.mem_append.1 hx with hx | hx
        · rcases List.mem_append.1 hx with hx | hx
          · rcases List.mem_append.1 hx with hx | hx
            · exact hI2.2.2.1 x hx
            · cases hr : r with
              | none => rw [hr] at hx; simp at hx
              | some y =>
                rw [hr] at hx
                simp only [List.mem_singleton] at hx
                rw [hx]
                exact hrf y hr
          · exact hI2.2.2.2 x hx
        · exact hrestf x hx
end

theorem dispatch_isVT (e : SrcExpr) (s s' : PassState) (r : NExpr)
    (hfl : s.need_flatten = true) (h : dispatchExpr e s = .ok (r, s')) :
    isVT r = true := by
  rw [dispatchExpr_eq] at h
  simp only [M.run_bind, M.run_getS, M.run_setS] at h
  cases hv : visitExpr e { s with need_flatten := true } with
  | error err => rw [hv] at h; simp at h
  | ok p =>
    obtain ⟨rv, s2⟩ := p
    simp only [hv] at h
    by_cases hw : (s.need_flatten && !(isVT rv)) = true
    · simp only [M.run_ite, hw, if_true, add_def, Except.ok.injEq,
        Prod.mk.injEq] at h
      obtain ⟨hr, -⟩ := h
      rw [← hr]
      rfl
    · simp only [M.run_ite, hw, Bool.false_eq_true, if_false, M.run_pure,
        Except.ok.injEq, Prod.mk.injEq] at h
      obtain ⟨hr, -⟩ := h
      rw [← hr]
      simp only [hfl, Bool.true_and, Bool.not_eq_true', Bool.not_eq_false] at hw
      simpa using hw

theorem remake_param_inv (p : SrcExpr) (s s2 : PassState) (np : NExpr)
    (hInv : Inv s) (h : remake_param p s = .ok (np, s2)) :
    Inv s2 ∧ s2.need_flatten = s.need_flatten ∧ isLeaf np = true := by
  cases p with
  | var n dt g =>
    simp only [remake_param, M.run_bind] at h
    cases ha : allocVar n dt false true none s with
    | error err => rw [ha] at h; simp at h
    | ok pa =>
      obtain ⟨id, s1⟩ := pa
      simp only [ha, M.run_pure, Except.ok.injEq, Prod.mk.injEq] at h
      obtain ⟨h1, h2⟩ := h
      obtain ⟨hI1, hfl1⟩ := allocVar_inv n dt false true none s s1 id hInv ha
      rw [← h1, ← h2]
      exact ⟨hI1, hfl1, rfl⟩
  | tensor n =>
    simp only [remake_param, M.run_pure, Except.ok.injEq, Prod.mk.injEq] at h
    obtain ⟨h1, h2⟩ := h
    rw [← h1, ← h2]
    exact ⟨hInv, rfl, rfl⟩
  | constant cv cdt => simp [remake_param, throwM] at h
  | indexing a b => simp [remake_param, throwM] at h
  | unop a => simp [remake_param, throwM] at h
  | binop a b => simp [remake_param, throwM] at h

theorem bind_params_inv :
    ∀ (ps : List SrcExpr) (s s' : PassState) (nps : List NExpr), Inv s →
      bind_params ps s = .ok (nps, s') →
      Inv s' ∧ s'.need_flatten = s.need_flatten := by
  intro ps
  induction ps with
  | nil =>
    intro s s' nps hInv h
    simp only [bind_params, M.run_pure, Except.ok.injEq, Prod.mk.injEq] at h
    obtain ⟨-, h2⟩ := h
    rw [← h2]
    exact ⟨hInv, rfl⟩
  | cons p rest ih =>
    intro s s' nps hInv h
    simp only [bind_params, M.run_bind] at h
    cases hr : remake_param p s with
    | error err => rw [hr] at h; simp at h
    | ok pr =>
      obtain ⟨np, s1⟩ := pr
      simp only [hr] at h
      obtain ⟨hI1, hfl1, hleaf⟩ := remake_param_inv p s s1 np hInv hr
      cases hins : insert_local_var p (some np) s1 with
      | error err => rw [hins] at h; simp at h
      | ok pins =>
        obtain ⟨ref, s2⟩ := pins
        simp only [hins] at h
        obtain ⟨hI2, hfl2, _, _, _, _⟩ := insert_local_var_inv p (some np)
          s1 s2 ref hI1 (by simpa [statusOK] using hleaf) hins
        cases hrest : bind_params rest s2 with
        | error err => rw [hrest] at h; simp at h
        | ok prest =>
          obtain ⟨nrest, s3⟩ := prest
          simp only [hrest, M.run_pure, Except.ok.injEq, Prod.mk.injEq] at h
          obtain ⟨-, h2⟩ := h
          obtain ⟨hI3, hfl3⟩ := ih s2 s3 nrest hI2 hrest
          rw [← h2]
          exact ⟨hI3, by rw [hfl3, hfl2, hfl1]⟩

theorem dispatch_func_inv (f : SrcFunc) (s s' : PassState) (ps : List NExpr)
    (body : List NStmt) (hInv : Inv s) (hfl : s.need_flatten = true)
    (h : dispatch_func f s = .ok ((ps, body), s')) :
    Inv s' ∧ ∀ t ∈ body, flatS t = true := by
  simp only [dispatch_func, M.run_bind] at h
  cases hp : push_scope .normal s with
  | error err => rw [hp] at h; simp at h
  | ok pp =>
    obtain ⟨u0, s1⟩ := pp
    simp only [hp] at h
    obtain ⟨hI1, hfl1⟩ := push_scope_inv .normal s s1 hInv hp
    cases hb : bind_params f.params s1 with
    | error err => rw [hb] at h; simp at h
    | ok pb =>
      obtain ⟨nps, s2⟩ := pb
      simp only [hb] at h
      obtain ⟨hI2, hfl2⟩ := bind_params_inv f.params s1 s2 nps hI1 hb
      cases hbody : dispatchBlock f.body s2 with
      | error err => rw [hbody] at h; simp at h
      | ok pbody =>
        obtain ⟨body0, s3⟩ := pbody
        simp only [hbody] at h
        obtain ⟨hI3, hfl3, hbf⟩ := dispatchBlock_inv f.body s2 s3 body0 hI2
          (by rw [hfl2, hfl1]; exact hfl) hbody
        cases hpop : pop_scope s3 with
        | error err => rw [hpop] at h; simp at h
        | ok ppop =>
          obtain ⟨sc, s4⟩ := ppop
          simp only [hpop, M.run_pure, Except.ok.injEq, Prod.mk.injEq] at h
          obtain ⟨⟨-, h1⟩, h2⟩ := h
          obtain ⟨hI4, -, -⟩ := pop_scope_inv s3 s4 sc hI3 hpop
          rw [← h1, ← h2]
          exact ⟨hI4, hbf⟩

theorem Inv_initState : Inv initState :=
  ⟨by simp [initState], by simp [initState], by simp [initState],
    by simp [initState]⟩

/-- C7: after the pass every operand of every composite operation in the
output is a leaf (`var`, tensor or constant): every statement emitted for a
successfully transformed function is flat (recursively, including loop and
if bodies) and every phi operand is a leaf.  The mechanism matches the
claim: a dispatch entered with `need_flatten` true always returns a `var` or
tensor — a composite result having been wrapped by `add_def` into a fresh
temporary `var` — and every dispatch runs its visit (hence its children)
from a state whose `need_flatten` flag was reset to true. -/
theorem claim_C7_flattening :
    (∀ (f : SrcFunc) (out : TransOut), ssa_transform_func f = .ok out →
      (∀ t ∈ out.stmts, flatS t = true) ∧
      (∀ ops ∈ out.phis, ops.all isLeaf = true)) ∧
    (∀ (e : SrcExpr) (s s' : PassState) (r : NExpr),
      s.need_flatten = true → dispatchExpr e s = .ok (r, s') →
      isVT r = true) ∧
    (∀ (e : SrcExpr), dispatchExpr e = (do
      let s0 ← getS
      setS { s0 with need_flatten := true }
      let ret ← visitExpr e
      if s0.need_flatten && !(isVT ret) then add_def ret
      else pure ret)) := by
  refine ⟨?_, dispatch_isVT, dispatchExpr_eq⟩
  intro f out h
  simp only [ssa_transform_func] at h
  cases hd : dispatch_func f initState with
  | error err => rw [hd] at h; simp at h
  | ok p =>
    obtain ⟨⟨ps, body⟩, s⟩ := p
    simp only [hd, Except.ok.injEq] at h
    obtain ⟨hI, hbf⟩ := dispatch_func_inv f initState s ps body
      Inv_initState rfl hd
    rw [← h]
    exact ⟨hbf, hI.2.1⟩

/-- Witness for C7: the concrete function is transformed successfully and
its output is flat, with leaf-only phi operands. -/
theorem claim_C7_witness :
    ssa_transform_func exampleFlattenFunc = .ok exampleFlattenOut ∧
    exampleFlattenOut.stmts.all flatS = true ∧
    exampleFlattenOut.phis.all (fun ops => ops.all isLeaf) = true ∧
    initState.need_flatten = true ∧
    dispatchExpr (.constant 5 3) initState =
      .ok (NExpr.var 0,
        ⟨[], [⟨"__tmp0", 0, false, false, some (.constant 5 3)⟩], [], true, 0,
          [.define (.var 0) (some (.constant 5 3))], []⟩) ∧
    isVT (NExpr.var 0) = true := by
  have hrun : ssa_transform_func exampleFlattenFunc = .ok exampleFlattenOut := by
    simp [ssa_transform_func, dispatch_func, bind_params, dispatchBlock, dispatchStmt,
      visit_define, visit_assign, visit_var, visit_tensor, dispatchExpr, push_scope, pop_scope,
      insert_local_var, get_local_var, get_local_var_nothrow, get_local_var_for_update,
      findFromTop, mapFind, mapInsertNoReplace, mapUpdate, readRef, writeRef, refPos,
      add_def, add_def_after_current_stmt, make_phi, append_phi_operand,
      rename_temp_var_with_version, patch_loop_phis, for_loop_merge, for_loop_merge_entry,
      allocVar, isGlobalVal, is_old_var_global, varCmpLt, keyEqv, keyName, exprKindId,
      strLt, strLtAux, isVT, toNBlock, initState, exampleFlattenFunc, exampleFlattenOut,
      M.run_bind, M.run_pure, M.run_getS, M.run_setS, M.run_modifyS, M.run_throwM, M.run_ite,
      toStringNat0, toStringNat1, toStringNat2, toStringNat3, toStringNat4, toStringNat5,
      toStringNat6, toStringNat7]
  have hdc : dispatchExpr (.constant 5 3) initState =
      .ok (NExpr.var 0,
        ⟨[], [⟨"__tmp0", 0, false, false, some (.constant 5 3)⟩], [], true, 0,
          [.define (.var 0) (some (.constant 5 3))], []⟩) := by
    simp [dispatchExpr, add_def, isVT, initState,
      M.run_bind, M.run_pure, M.run_getS, M.run_setS, M.run_ite, toStringNat0]
  have hmain := claim_C7_flattening.1 exampleFlattenFunc exampleFlattenOut hrun
  refine ⟨hrun, ?_, ?_, rfl, hdc, claim_C7_flattening.2.1 (.constant 5 3)
    initState _ (NExpr.var 0) rfl hdc⟩
  · rw [List.all_eq_true]
    intro x hx
    exact hmain.1 x hx
  · rw [List.all_eq_true]
    intro x hx
    exact hmain.2 x hx

/-! ### C8: determinism -/

theorem sortedKeys_insert_aux (m : List (SrcExpr × SsaVarStatus)) (k : SrcExpr)
    (v : SsaVarStatus) :
    (sortedKeys m = true → sortedKeys (mapInsertNoReplace m k v) = true) ∧
    (∀ x : SrcExpr × SsaVarStatus, sortedKeys (x :: m) = true →
      varCmpLt x.1 k = true → sortedKeys (x :: mapInsertNoReplace m k v) = true) := by
  induction m with
  | nil =>
    refine ⟨fun _ => rfl, fun x _ hx => ?_⟩
    simp [mapInsertNoReplace, sortedKeys, hx]
  | cons p rest ih =>
    by_cases h1 : varCmpLt k p.1 = true
    · constructor
      · intro hm
        simp [mapInsertNoReplace, h1, sortedKeys, hm]
      · intro x hx hxk
        cases rest with
        | nil => simp_all [mapInsertNoReplace, sortedKeys]
        | cons q r => simp_all [mapInsertNoReplace, sortedKeys]
    · by_cases h2 : varCmpLt p.1 k = true
      · constructor
        · intro hm
          have hm' : sortedKeys (p :: rest) = true := hm
          have := ih.2 p hm' h2
          simpa [mapInsertNoReplace, h1, h2] using this
        · intro x hx hxk
          have hxp : varCmpLt x.1 p.1 = true := by
            cases rest <;> simp_all [sortedKeys]
          have hm' : sortedKeys (p :: rest) = true := by
            cases rest <;> simp_all [sortedKeys]
          have hrec := ih.2 p hm' h2
          have : sortedKeys (p :: mapInsertNoReplace rest k v) = true := hrec
          simp only [mapInsertNoReplace, h1, h2]
          cases hins : mapInsertNoReplace rest k v with
          | nil => simp [sortedKeys, hxp]
          | cons y ys =>
            rw [hins] at this
            simp only [sortedKeys, Bool.and_eq_true] at this
            simp [sortedKeys, hxp, this.1, this.2]
      · constructor
        · intro hm
          simpa [mapInsertNoReplace, h1, h2] using hm
        · intro x hx hxk
          simpa [mapInsertNoReplace, h1, h2] using hx

/-- Claim C8: the pass is deterministic.  In the embedding every transform is
a pure function of the input — `ssa_transform_t::operator()` builds a fresh
pass instance (fresh version counter, fresh arenas) for each call, so two
runs on the same function or statement tree coincide; and scope maps are kept
strictly sorted by the `var_cmper_t` order (node kind, then name) under
`std::map::insert`, so their iteration order — which fixes emission order at
merges — is uniquely determined by the key set. -/
theorem claim_C8_determinism :
    (∀ f : SrcFunc, ssa_transform_func f = ssa_transform_func f) ∧
    (∀ t : SrcStmt, ssa_transform_stmt t = ssa_transform_stmt t) ∧
    (∀ (m : List (SrcExpr × SsaVarStatus)) (k : SrcExpr) (v : SsaVarStatus),
      sortedKeys m = true → sortedKeys (mapInsertNoReplace m k v) = true) :=
  ⟨fun _ => rfl, fun _ => rfl, fun m k v hm => (sortedKeys_insert_aux m k v).1 hm⟩

/-- Witness for C8 at concrete inputs: a two-run comparison on the concrete
loop program, and a sorted-insertion instance with its hypothesis discharged
by evaluation. -/
theorem claim_C8_witness :
    ssa_transform_func exampleLoopReadOnly = ssa_transform_func exampleLoopReadOnly ∧
    sortedKeys [((SrcExpr.var "a" 0 false), ⟨none, 0, []⟩)] = true ∧
    sortedKeys (mapInsertNoReplace [((SrcExpr.var "a" 0 false), ⟨none, 0, []⟩)]
      (.var "b" 0 false) ⟨none, 0, []⟩) = true :=
  ⟨claim_C8_determinism.1 exampleLoopReadOnly, rfl,
    claim_C8_determinism.2.2 _ _ _ rfl⟩

end SsaTransform
